import Mathlib

/-!
Verification of the schema-snapshot diff-and-codegen engine of the
`go-migration` repository (`generator.go`).

The Go source is shallowly embedded: Go maps keyed by name become
association lists `List (String × α)` (map iteration in the source always
goes through `sortedKeys`, modelled by an insertion sort on the key list;
map lookup of an absent key yields the Go zero value, modelled by a
default argument), strings become `String`, and the SQL-emitting functions
become pure string builders.  Definition names follow the Go source.
-/

namespace GoMigration

/-! ## Go string helpers (`strings` package) -/

/-- Model of Go `strings.TrimSpace`: drop leading and trailing whitespace. -/
def trimSpace (s : String) : String :=
  ⟨(((s.data.dropWhile Char.isWhitespace).reverse).dropWhile Char.isWhitespace).reverse⟩

/-- Model of Go `strings.ToUpper` (character-wise upper-casing). -/
def toUpperStr (s : String) : String :=
  ⟨s.data.map Char.toUpper⟩

/-- One step of splitting a character stream into whitespace-separated
words (used right-to-left by `goFields`). -/
def fieldsCore (c : Char) (acc : List (List Char)) : List (List Char) :=
  if c.isWhitespace then [] :: acc
  else
    match acc with
    | [] => [[c]]
    | w :: ws => (c :: w) :: ws

/-- Model of Go `strings.Fields`: split around runs of whitespace. -/
def goFields (s : String) : List String :=
  ((s.data.foldr fieldsCore []).filter (fun w => w ≠ [])).map (fun w => ⟨w⟩)

/-- Model of Go `strings.Join`. -/
def joinSep (sep : String) : List String → String
  | [] => ""
  | [x] => x
  | x :: xs => x ++ sep ++ joinSep sep xs

/-! ## Association-list model of Go maps -/

/-- Key list of a map (Go: iteration domain). -/
def keysOf {α : Type} (m : List (String × α)) : List String :=
  m.map Prod.fst

/-- Lexicographic strict comparison of character lists; code-point order
coincides with Go's byte-wise (UTF-8) string order. -/
def charListLt : List Char → List Char → Bool
  | [], [] => false
  | [], _ :: _ => true
  | _ :: _, [] => false
  | a :: as, b :: bs => if a < b then true else if a = b then charListLt as bs else false

/-- Go `<` on strings. -/
def strLt (a b : String) : Bool := charListLt a.data b.data

/-- Go `<=` on strings (total order: `a <= b` iff `¬ b < a`). -/
def strLe (a b : String) : Bool := ! strLt b a

/-- Insert into a (weakly) sorted list of strings. -/
def insertSorted (x : String) : List String → List String
  | [] => [x]
  | y :: ys => if strLe x y then x :: y :: ys else y :: insertSorted x ys

/-- Insertion sort on strings; models the `sort.Strings` call inside
Go `sortedKeys`. -/
def sortStrings : List String → List String
  | [] => []
  | x :: xs => insertSorted x (sortStrings xs)

/-- Go `sortedKeys`: the map's keys in lexicographically sorted order. -/
def sortedKeys {α : Type} (m : List (String × α)) : List String :=
  sortStrings (keysOf m)

/-- Go map membership (`_, ok := m[k]` / the `prevSet[k]` idiom). -/
def hasKey {α : Type} (m : List (String × α)) (k : String) : Bool :=
  m.any (fun p => p.1 == k)

/-- Go map lookup `m[k]`; an absent key yields the zero value `d`. -/
def lookupD {α : Type} (m : List (String × α)) (k : String) (d : α) : α :=
  match m.find? (fun p => p.1 == k) with
  | some p => p.2
  | none => d

/-! ## Schema state model (`generator.go` data types) -/

/-- Go `columnState`. -/
structure columnState where
  Definition : String
deriving Repr, DecidableEq

/-- Go `indexFieldState`. -/
structure indexFieldState where
  Column : String
  Expression : String
  Sort' : String
  Collate : String
  Length : Int
deriving Repr, DecidableEq

/-- Go `indexState` (the `Type` field is called `Type'` because `Type` is a
Lean keyword). -/
structure indexState where
  Class : String
  Type' : String
  Where : String
  Comment : String
  Option : String
  Fields : List indexFieldState
deriving Repr, DecidableEq

/-- Go `foreignKeyState`. -/
structure foreignKeyState where
  Columns : List String
  RefTable : String
  RefColumns : List String
  OnDelete : String
  OnUpdate : String
deriving Repr, DecidableEq

/-- Go `tableState`; the name-keyed Go maps become association lists. -/
structure tableState where
  Columns : List (String × columnState)
  Indexes : List (String × indexState)
  ForeignKeys : List (String × foreignKeyState)
  PrimaryKeys : List String
deriving Repr, DecidableEq

/-- Go `schemaState`. -/
structure schemaState where
  Tables : List (String × tableState)
deriving Repr, DecidableEq

/-- Go zero value of `columnState`. -/
def zeroColumn : columnState := ⟨""⟩

/-- Go zero value of `indexState`. -/
def zeroIndex : indexState := ⟨"", "", "", "", "", []⟩

/-- Go zero value of `foreignKeyState`. -/
def zeroFK : foreignKeyState := ⟨[], "", [], "", ""⟩

/-- Go zero value of `tableState`. -/
def zeroTable : tableState := ⟨[], [], [], []⟩

/-- Go `migrationOp`. -/
structure migrationOp where
  up : String
  down : String
deriving Repr, DecidableEq

/-! ## Normalizer -/

/-- Go `normalizeDefinition`: trim and collapse runs of whitespace. -/
def normalizeDefinition (definition : String) : String :=
  joinSep " " (goFields (trimSpace definition))

/-- Go `normalizeIndexClass`. -/
def normalizeIndexClass (cls : String) : String :=
  toUpperStr (trimSpace cls)

/-- Go `normalizeIndex`. -/
def normalizeIndex (idx : indexState) : indexState :=
  { Class := normalizeIndexClass idx.Class
    Type' := trimSpace idx.Type'
    Where := trimSpace idx.Where
    Comment := trimSpace idx.Comment
    Option := trimSpace idx.Option
    Fields := idx.Fields.map (fun f =>
      { Column := trimSpace f.Column
        Expression := trimSpace f.Expression
        Sort' := toUpperStr (trimSpace f.Sort')
        Collate := trimSpace f.Collate
        Length := f.Length }) }

/-- Go `normalizeForeignKeyAction`. -/
def normalizeForeignKeyAction (action : String) : String :=
  toUpperStr (trimSpace action)

/-- Go `normalizeForeignKey`: trim fields, drop empty column entries,
upper-case referential actions. -/
def normalizeForeignKey (fk : foreignKeyState) : foreignKeyState :=
  { Columns := (fk.Columns.map trimSpace).filter (fun c => c ≠ "")
    RefTable := trimSpace fk.RefTable
    RefColumns := (fk.RefColumns.map trimSpace).filter (fun c => c ≠ "")
    OnDelete := normalizeForeignKeyAction fk.OnDelete
    OnUpdate := normalizeForeignKeyAction fk.OnUpdate }

/-! ## SQL emitter -/

/-- Doubling of single quotes, modelling Go `strings.ReplaceAll(v, "'", "''")`. -/
def escapeQuotes : List Char → List Char
  | [] => []
  | c :: cs => if c = '\'' then '\'' :: '\'' :: escapeQuotes cs else c :: escapeQuotes cs

/-- Go `quoteSQLString`. -/
def quoteSQLString (v : String) : String :=
  "'" ++ (⟨escapeQuotes v.data⟩ : String) ++ "'"

/-- Go `quotedColumns`. -/
def quotedColumns (columns : List String) : String :=
  joinSep ", " (columns.map (fun col => "`" ++ trimSpace col ++ "`"))

/-- Go `indexClassPrefix`. -/
def indexClassPrefix (cls : String) : String :=
  match normalizeIndexClass cls with
  | "UNIQUE" => "UNIQUE "
  | "FULLTEXT" => "FULLTEXT "
  | "SPATIAL" => "SPATIAL "
  | _ => ""

/-- Go `indexClassKeyPrefix`. -/
def indexClassKeyPrefix (cls : String) : String :=
  match normalizeIndexClass cls with
  | "UNIQUE" => "UNIQUE KEY"
  | "FULLTEXT" => "FULLTEXT KEY"
  | "SPATIAL" => "SPATIAL KEY"
  | _ => "KEY"

/-- Go `indexFieldSQL`. -/
def indexFieldSQL (field : indexFieldState) : String :=
  let base :=
    if trimSpace field.Expression ≠ "" then trimSpace field.Expression
    else
      let b := "`" ++ trimSpace field.Column ++ "`"
      let b := if field.Length > 0 then b ++ "(" ++ toString field.Length ++ ")" else b
      if trimSpace field.Collate ≠ "" then b ++ " COLLATE " ++ trimSpace field.Collate else b
  if trimSpace field.Sort' ≠ "" then base ++ " " ++ toUpperStr (trimSpace field.Sort') else base

/-- Go `indexFieldsSQL`. -/
def indexFieldsSQL (fields : List indexFieldState) : String :=
  joinSep ", " (fields.map indexFieldSQL)

/-- Go `createIndexSQL`. -/
def createIndexSQL (tableName indexName : String) (idx0 : indexState) : String :=
  let idx := normalizeIndex idx0
  let sql := "CREATE " ++ indexClassPrefix idx.Class ++ "INDEX `" ++ indexName ++
    "` ON `" ++ tableName ++ "` (" ++ indexFieldsSQL idx.Fields ++ ")"
  let sql := if idx.Type' ≠ "" then sql ++ " USING " ++ idx.Type' else sql
  let sql := if idx.Comment ≠ "" then sql ++ " COMMENT " ++ quoteSQLString idx.Comment else sql
  let sql := if idx.Option ≠ "" then sql ++ " " ++ idx.Option else sql
  sql ++ ";"

/-- Go `dropIndexSQL`. -/
def dropIndexSQL (tableName indexName : String) : String :=
  "DROP INDEX `" ++ indexName ++ "` ON `" ++ tableName ++ "`;"

/-- Go `createTableIndexDefinition`. -/
def createTableIndexDefinition (indexName : String) (idx0 : indexState) : String :=
  let idx := normalizeIndex idx0
  let definition := indexClassKeyPrefix idx.Class ++ " `" ++ indexName ++ "` (" ++
    indexFieldsSQL idx.Fields ++ ")"
  let definition := if idx.Comment ≠ "" then definition ++ " COMMENT " ++ quoteSQLString idx.Comment else definition
  if idx.Option ≠ "" then definition ++ " " ++ idx.Option else definition

/-- Go `createTableSQL`: columns in sorted order, then the PRIMARY KEY
clause in the order of the `PrimaryKeys` slice, then the table's indexes. -/
def createTableSQL (tableName : String) (table : tableState) : String :=
  let colDefs := (sortedKeys table.Columns).map
    (fun col => "  `" ++ col ++ "` " ++ (lookupD table.Columns col zeroColumn).Definition)
  let defs :=
    if table.PrimaryKeys.length > 0 then
      colDefs ++ ["  PRIMARY KEY (" ++ joinSep ", " (table.PrimaryKeys.map (fun pk => "`" ++ pk ++ "`")) ++ ")"]
    else colDefs
  let defs := defs ++ (sortedKeys table.Indexes).map
    (fun indexName => "  " ++ createTableIndexDefinition indexName (lookupD table.Indexes indexName zeroIndex))
  "CREATE TABLE `" ++ tableName ++ "` (\n" ++ joinSep ",\n" defs ++ "\n);"

/-- Go `createForeignKeySQL`. -/
def createForeignKeySQL (tableName constraintName : String) (fk0 : foreignKeyState) : String :=
  let fk := normalizeForeignKey fk0
  let parts :=
    ["ALTER TABLE `" ++ tableName ++ "` ADD CONSTRAINT `" ++ constraintName ++ "`",
     "FOREIGN KEY (" ++ quotedColumns fk.Columns ++ ")",
     "REFERENCES `" ++ fk.RefTable ++ "` (" ++ quotedColumns fk.RefColumns ++ ")"]
  let parts := if fk.OnDelete ≠ "" then parts ++ ["ON DELETE " ++ fk.OnDelete] else parts
  let parts := if fk.OnUpdate ≠ "" then parts ++ ["ON UPDATE " ++ fk.OnUpdate] else parts
  joinSep " " parts ++ ";"

/-- Go `dropForeignKeySQL`. -/
def dropForeignKeySQL (tableName constraintName : String) : String :=
  "ALTER TABLE `" ++ tableName ++ "` DROP FOREIGN KEY `" ++ constraintName ++ "`;"

/-- The `DROP TABLE IF EXISTS` statement emitted inline by `buildDiff`. -/
def dropTableSQL (tableName : String) : String :=
  "DROP TABLE IF EXISTS `" ++ tableName ++ "`;"

/-! ## Diff engine

Each Go `for _, name := range sortedKeys(m)` loop whose body appends zero
or one operation is modelled by `opLoop` applied to the loop body (a
function from the name to `Option migrationOp`); a loop body appending a
list of operations is modelled by `opsLoop`. -/

/-- A Go `for` loop over names whose body appends at most one operation. -/
def opLoop (f : String → Option migrationOp) : List String → List migrationOp
  | [] => []
  | n :: ns =>
    (match f n with
     | some op => [op]
     | none => []) ++ opLoop f ns

/-- A Go `for` loop over names whose body appends a list of operations. -/
def opsLoop (f : String → List migrationOp) : List String → List migrationOp
  | [] => []
  | n :: ns => f n ++ opsLoop f ns

/-- Body of the first loop of Go `diffForeignKeys` (over `prevNames`),
drop-side: a removed or modified constraint is dropped. -/
def fkDropOpFor (tableName : String) (prev cur : List (String × foreignKeyState))
    (name : String) : Option migrationOp :=
  if ¬ hasKey cur name then
    some { up := dropForeignKeySQL tableName name
           down := createForeignKeySQL tableName name (lookupD prev name zeroFK) }
  else if normalizeForeignKey (lookupD prev name zeroFK) ≠ normalizeForeignKey (lookupD cur name zeroFK) then
    some { up := dropForeignKeySQL tableName name
           down := createForeignKeySQL tableName name (lookupD prev name zeroFK) }
  else none

/-- Body of the first loop of Go `diffForeignKeys` (over `prevNames`),
add-side: a modified constraint is re-added with its new definition. -/
def fkChangedAddOpFor (tableName : String) (prev cur : List (String × foreignKeyState))
    (name : String) : Option migrationOp :=
  if ¬ hasKey cur name then none
  else if normalizeForeignKey (lookupD prev name zeroFK) ≠ normalizeForeignKey (lookupD cur name zeroFK) then
    some { up := createForeignKeySQL tableName name (lookupD cur name zeroFK)
           down := dropForeignKeySQL tableName name }
  else none

/-- Body of the second loop of Go `diffForeignKeys` (over `curNames`):
a brand-new constraint is added. -/
def fkNewAddOpFor (tableName : String) (prev cur : List (String × foreignKeyState))
    (name : String) : Option migrationOp :=
  if hasKey prev name then none
  else
    some { up := createForeignKeySQL tableName name (lookupD cur name zeroFK)
           down := dropForeignKeySQL tableName name }

/-- Go `diffForeignKeys`: returns the drop operations (for placement before
column/index work) and the add operations (for placement after). -/
def diffForeignKeys (tableName : String) (prev cur : List (String × foreignKeyState)) :
    List migrationOp × List migrationOp :=
  (opLoop (fkDropOpFor tableName prev cur) (sortedKeys prev),
   opLoop (fkChangedAddOpFor tableName prev cur) (sortedKeys prev) ++
     opLoop (fkNewAddOpFor tableName prev cur) (sortedKeys cur))

/-- Body of the Go `diffTable` loop over `curCols`: new column → ADD COLUMN,
changed normalized definition → MODIFY COLUMN. -/
def columnOpForCur (tableName : String) (prev cur : tableState) (col : String) :
    Option migrationOp :=
  if ¬ hasKey prev.Columns col then
    some { up := "ALTER TABLE `" ++ tableName ++ "` ADD COLUMN `" ++ col ++ "` " ++
                 (lookupD cur.Columns col zeroColumn).Definition ++ ";"
           down := "ALTER TABLE `" ++ tableName ++ "` DROP COLUMN `" ++ col ++ "`;" }
  else if normalizeDefinition (lookupD prev.Columns col zeroColumn).Definition ≠
          normalizeDefinition (lookupD cur.Columns col zeroColumn).Definition then
    some { up := "ALTER TABLE `" ++ tableName ++ "` MODIFY COLUMN `" ++ col ++ "` " ++
                 (lookupD cur.Columns col zeroColumn).Definition ++ ";"
           down := "ALTER TABLE `" ++ tableName ++ "` MODIFY COLUMN `" ++ col ++ "` " ++
                   (lookupD prev.Columns col zeroColumn).Definition ++ ";" }
  else none

/-- Body of the Go `diffTable` loop over `prevCols`: removed column →
DROP COLUMN with ADD COLUMN inverse. -/
def columnOpForPrev (tableName : String) (prev cur : tableState) (col : String) :
    Option migrationOp :=
  if hasKey cur.Columns col then none
  else
    some { up := "ALTER TABLE `" ++ tableName ++ "` DROP COLUMN `" ++ col ++ "`;"
           down := "ALTER TABLE `" ++ tableName ++ "` ADD COLUMN `" ++ col ++ "` " ++
                   (lookupD prev.Columns col zeroColumn).Definition ++ ";" }

/-- Body of the Go `diffTable` loop over `curIndexes`: new index → CREATE,
changed normalized index → single drop-and-recreate operation. -/
def indexOpForCur (tableName : String) (prev cur : tableState) (idx : String) :
    Option migrationOp :=
  if ¬ hasKey prev.Indexes idx then
    some { up := createIndexSQL tableName idx (lookupD cur.Indexes idx zeroIndex)
           down := dropIndexSQL tableName idx }
  else if normalizeIndex (lookupD prev.Indexes idx zeroIndex) ≠
          normalizeIndex (lookupD cur.Indexes idx zeroIndex) then
    some { up := dropIndexSQL tableName idx ++ "\n" ++
                 createIndexSQL tableName idx (lookupD cur.Indexes idx zeroIndex)
           down := dropIndexSQL tableName idx ++ "\n" ++
                   createIndexSQL tableName idx (lookupD prev.Indexes idx zeroIndex) }
  else none

/-- Body of the Go `diffTable` loop over `prevIndexes`: removed index →
DROP INDEX with CREATE INDEX inverse. -/
def indexOpForPrev (tableName : String) (prev cur : tableState) (idx : String) :
    Option migrationOp :=
  if hasKey cur.Indexes idx then none
  else
    some { up := dropIndexSQL tableName idx
           down := createIndexSQL tableName idx (lookupD prev.Indexes idx zeroIndex) }

/-- Go `diffTable`: foreign-key drops, then column changes, then index
changes, then foreign-key adds. -/
def diffTable (tableName : String) (prev cur : tableState) : List migrationOp :=
  (diffForeignKeys tableName prev.ForeignKeys cur.ForeignKeys).1 ++
  opLoop (columnOpForCur tableName prev cur) (sortedKeys cur.Columns) ++
  opLoop (columnOpForPrev tableName prev cur) (sortedKeys prev.Columns) ++
  opLoop (indexOpForCur tableName prev cur) (sortedKeys cur.Indexes) ++
  opLoop (indexOpForPrev tableName prev cur) (sortedKeys prev.Indexes) ++
  (diffForeignKeys tableName prev.ForeignKeys cur.ForeignKeys).2

/-- Go `addForeignKeyOpsForNewTable`. -/
def addForeignKeyOpsForNewTable (tableName : String) (table : tableState) :
    List migrationOp :=
  (sortedKeys table.ForeignKeys).map (fun name =>
    { up := createForeignKeySQL tableName name (lookupD table.ForeignKeys name zeroFK)
      down := dropForeignKeySQL tableName name })

/-- Go `restoreForeignKeyOpsForDroppedTable`: down-only operations whose
`down` recreates each foreign key of a dropped table. -/
def restoreForeignKeyOpsForDroppedTable (tableName : String) (table : tableState) :
    List migrationOp :=
  (sortedKeys table.ForeignKeys).map (fun name =>
    { up := ""
      down := createForeignKeySQL tableName name (lookupD table.ForeignKeys name zeroFK) })

/-- Body of the first `buildDiff` loop (over `curTables`): brand-new table. -/
def newTableOpFor (previous current : schemaState) (tableName : String) :
    Option migrationOp :=
  if hasKey previous.Tables tableName then none
  else
    some { up := createTableSQL tableName (lookupD current.Tables tableName zeroTable)
           down := dropTableSQL tableName }

/-- Body of the second `buildDiff` loop (over `curTables`): foreign keys of
brand-new tables. -/
def newTableFkFor (previous current : schemaState) (tableName : String) :
    List migrationOp :=
  if hasKey previous.Tables tableName then []
  else addForeignKeyOpsForNewTable tableName (lookupD current.Tables tableName zeroTable)

/-- Body of the third `buildDiff` loop (over `prevTables`): dropped table —
restore operations for its foreign keys, then the DROP TABLE operation. -/
def droppedTableOpsFor (previous current : schemaState) (tableName : String) :
    List migrationOp :=
  if hasKey current.Tables tableName then []
  else
    restoreForeignKeyOpsForDroppedTable tableName (lookupD previous.Tables tableName zeroTable) ++
    [{ up := dropTableSQL tableName
       down := createTableSQL tableName (lookupD previous.Tables tableName zeroTable) }]

/-- Body of the fourth `buildDiff` loop (over `curTables`): per-table diff of
tables present in both snapshots. -/
def bothTableOpsFor (previous current : schemaState) (tableName : String) :
    List migrationOp :=
  if hasKey previous.Tables tableName then
    diffTable tableName (lookupD previous.Tables tableName zeroTable)
      (lookupD current.Tables tableName zeroTable)
  else []

/-- The ordered operation list built by Go `buildDiff` before it is split
into up/down statement lists. -/
def buildDiffOps (previous current : schemaState) : List migrationOp :=
  opLoop (newTableOpFor previous current) (sortedKeys current.Tables) ++
  opsLoop (newTableFkFor previous current) (sortedKeys current.Tables) ++
  opsLoop (droppedTableOpsFor previous current) (sortedKeys previous.Tables) ++
  opsLoop (bothTableOpsFor previous current) (sortedKeys current.Tables)

/-- The final forward loop of Go `buildDiff`: non-blank `up` texts in
emission order. -/
def upLoop : List migrationOp → List String
  | [] => []
  | op :: rest => (if trimSpace op.up = "" then [] else [op.up]) ++ upLoop rest

/-- The final backward loop of Go `buildDiff` (index from `len-1` down to
`0`): non-blank `down` texts in reverse emission order. -/
def downLoop : List migrationOp → List String
  | [] => []
  | op :: rest => downLoop rest ++ (if trimSpace op.down = "" then [] else [op.down])

/-- Go `buildDiff`: the up-statement and down-statement lists. -/
def buildDiff (previous current : schemaState) : List String × List String :=
  (upLoop (buildDiffOps previous current), downLoop (buildDiffOps previous current))

/-! ## Basic lemmas about the loop combinators -/

theorem opLoop_eq_filterMap (f : String → Option migrationOp) (l : List String) :
    opLoop f l = l.filterMap f := by
  induction l with
  | nil => rfl
  | cons n ns ih =>
    simp only [opLoop, List.filterMap_cons, ih]
    cases f n <;> simp

theorem opsLoop_eq_flatMap (f : String → List migrationOp) (l : List String) :
    opsLoop f l = l.flatMap f := by
  induction l with
  | nil => rfl
  | cons n ns ih => simp [opsLoop, ih]

theorem filterMap_ite_none (p : String → Bool) (g : String → migrationOp) (l : List String) :
    l.filterMap (fun x => if p x then none else some (g x)) =
      (l.filter (fun x => ! p x)).map g := by
  induction l with
  | nil => rfl
  | cons n ns ih =>
    by_cases h : p n <;> simp [List.filterMap_cons, List.filter_cons, h, ih]

theorem flatMap_ite_nil (p : String → Bool) (g : String → List migrationOp) (l : List String) :
    l.flatMap (fun x => if p x then [] else g x) =
      (l.filter (fun x => ! p x)).flatMap g := by
  induction l with
  | nil => rfl
  | cons n ns ih =>
    by_cases h : p n <;> simp [List.flatMap_cons, List.filter_cons, h, ih]

theorem flatMap_ite_nil_pos (p : String → Bool) (g : String → List migrationOp) (l : List String) :
    l.flatMap (fun x => if p x then g x else []) =
      (l.filter (fun x => p x)).flatMap g := by
  induction l with
  | nil => rfl
  | cons n ns ih =>
    by_cases h : p n <;> simp [List.flatMap_cons, List.filter_cons, h, ih]

theorem upLoop_append (a b : List migrationOp) :
    upLoop (a ++ b) = upLoop a ++ upLoop b := by
  induction a with
  | nil => rfl
  | cons op rest ih => simp [upLoop, ih]

theorem downLoop_append (a b : List migrationOp) :
    downLoop (a ++ b) = downLoop b ++ downLoop a := by
  induction a with
  | nil => simp [downLoop]
  | cons op rest ih => simp [downLoop, ih]

theorem upLoop_eq_filter_map (l : List migrationOp) :
    upLoop l = (l.filter (fun op => ! (trimSpace op.up == ""))).map (fun op => op.up) := by
  induction l with
  | nil => rfl
  | cons op rest ih =>
    by_cases h : trimSpace op.up = "" <;> simp [upLoop, List.filter_cons, h, ih]

theorem downLoop_eq_filter_map (l : List migrationOp) :
    downLoop l =
      (l.reverse.filter (fun op => ! (trimSpace op.down == ""))).map (fun op => op.down) := by
  induction l with
  | nil => rfl
  | cons op rest ih =>
    by_cases h : trimSpace op.down = "" <;>
      simp [downLoop, List.filter_append, List.filter_cons, h, ih]

/-! ## Claim theorems: emission order and up/down extraction -/

/-- **C1.** For every pair of schema states `(previous, current)` the diff
emits its operations in exactly this global order: first one CREATE TABLE
operation (with DROP TABLE IF EXISTS inverse) per table present only in
`current`, in lexicographic table order; then the ADD CONSTRAINT
operations for the foreign keys of those new tables (in the same table
order, constraints sorted inside each table); then, for each table present
only in `previous` in lexicographic order, first the down-only
foreign-key restore operations and then a DROP TABLE IF EXISTS operation
whose inverse is the full CREATE TABLE; and finally the per-table diffs of
the tables present in both snapshots, in lexicographic order. -/
theorem buildDiff_emission_order (previous current : schemaState) :
    buildDiffOps previous current =
      (((sortedKeys current.Tables).filter
          (fun t => ! hasKey previous.Tables t)).map (fun t =>
        { up := createTableSQL t (lookupD current.Tables t zeroTable)
          down := dropTableSQL t })) ++
      (((sortedKeys current.Tables).filter
          (fun t => ! hasKey previous.Tables t)).flatMap (fun t =>
        addForeignKeyOpsForNewTable t (lookupD current.Tables t zeroTable))) ++
      (((sortedKeys previous.Tables).filter
          (fun t => ! hasKey current.Tables t)).flatMap (fun t =>
        restoreForeignKeyOpsForDroppedTable t (lookupD previous.Tables t zeroTable) ++
        [{ up := dropTableSQL t
           down := createTableSQL t (lookupD previous.Tables t zeroTable) }])) ++
      (((sortedKeys current.Tables).filter
          (fun t => hasKey previous.Tables t)).flatMap (fun t =>
        diffTable t (lookupD previous.Tables t zeroTable)
          (lookupD current.Tables t zeroTable))) := by
  have h1 : opLoop (newTableOpFor previous current) (sortedKeys current.Tables) =
      ((sortedKeys current.Tables).filter (fun t => ! hasKey previous.Tables t)).map
        (fun t => { up := createTableSQL t (lookupD current.Tables t zeroTable)
                    down := dropTableSQL t }) := by
    rw [opLoop_eq_filterMap]
    exact filterMap_ite_none (fun t => hasKey previous.Tables t) _ _
  have h2 : opsLoop (newTableFkFor previous current) (sortedKeys current.Tables) =
      ((sortedKeys current.Tables).filter (fun t => ! hasKey previous.Tables t)).flatMap
        (fun t => addForeignKeyOpsForNewTable t (lookupD current.Tables t zeroTable)) := by
    rw [opsLoop_eq_flatMap]
    exact flatMap_ite_nil (fun t => hasKey previous.Tables t) _ _
  have h3 : opsLoop (droppedTableOpsFor previous current) (sortedKeys previous.Tables) =
      ((sortedKeys previous.Tables).filter (fun t => ! hasKey current.Tables t)).flatMap
        (fun t =>
          restoreForeignKeyOpsForDroppedTable t (lookupD previous.Tables t zeroTable) ++
          [{ up := dropTableSQL t
             down := createTableSQL t (lookupD previous.Tables t zeroTable) }]) := by
    rw [opsLoop_eq_flatMap]
    exact flatMap_ite_nil (fun t => hasKey current.Tables t) _ _
  have h4 : opsLoop (bothTableOpsFor previous current) (sortedKeys current.Tables) =
      ((sortedKeys current.Tables).filter (fun t => hasKey previous.Tables t)).flatMap
        (fun t => diffTable t (lookupD previous.Tables t zeroTable)
          (lookupD current.Tables t zeroTable)) := by
    rw [opsLoop_eq_flatMap]
    exact flatMap_ite_nil_pos (fun t => hasKey previous.Tables t) _ _
  unfold buildDiffOps
  rw [h1, h2, h3, h4]

/-! ## Membership lemmas for sorted key lists -/

theorem mem_insertSorted (x y : String) (l : List String) :
    y ∈ insertSorted x l ↔ y = x ∨ y ∈ l := by
  induction l with
  | nil => simp [insertSorted]
  | cons z zs ih =>
    unfold insertSorted
    by_cases h : strLe x z = true
    · simp [h]
    · simp only [Bool.not_eq_true] at h
      simp only [h, Bool.false_eq_true, if_false, List.mem_cons, ih]
      tauto

theorem mem_sortStrings (y : String) (l : List String) :
    y ∈ sortStrings l ↔ y ∈ l := by
  induction l with
  | nil => simp [sortStrings]
  | cons x xs ih => simp [sortStrings, mem_insertSorted, ih]

theorem hasKey_iff_mem_keys {α : Type} (m : List (String × α)) (k : String) :
    hasKey m k = true ↔ k ∈ keysOf m := by
  simp [hasKey, keysOf, List.any_eq_true, List.mem_map]

theorem hasKey_of_mem_sortedKeys {α : Type} (m : List (String × α)) (k : String)
    (h : k ∈ sortedKeys m) : hasKey m k = true := by
  rw [hasKey_iff_mem_keys]
  rw [sortedKeys] at h
  exact (mem_sortStrings k (keysOf m)).mp h

/-! ## Claim theorem: unchanged elements produce no operations -/

/-- **C3.** `diff(S, S)` yields empty up and down statement lists for every
schema state `S`; a table present in both snapshots with an identical
state contributes an empty per-table diff; and a column, index, or
foreign key present in both snapshots whose normalized canonical forms
coincide produces `none` in every per-element loop body of the diff. -/
theorem diff_idempotent_and_skips_unchanged :
    (∀ S : schemaState, buildDiff S S = ([], [])) ∧
    (∀ tableName : String, ∀ ts : tableState, diffTable tableName ts ts = []) ∧
    (∀ tableName : String, ∀ prev cur : tableState, ∀ col : String,
      hasKey prev.Columns col = true → hasKey cur.Columns col = true →
      normalizeDefinition (lookupD prev.Columns col zeroColumn).Definition =
        normalizeDefinition (lookupD cur.Columns col zeroColumn).Definition →
      columnOpForCur tableName prev cur col = none ∧
      columnOpForPrev tableName prev cur col = none) ∧
    (∀ tableName : String, ∀ prev cur : tableState, ∀ idx : String,
      hasKey prev.Indexes idx = true → hasKey cur.Indexes idx = true →
      normalizeIndex (lookupD prev.Indexes idx zeroIndex) =
        normalizeIndex (lookupD cur.Indexes idx zeroIndex) →
      indexOpForCur tableName prev cur idx = none ∧
      indexOpForPrev tableName prev cur idx = none) ∧
    (∀ tableName : String, ∀ prev cur : List (String × foreignKeyState), ∀ name : String,
      hasKey prev name = true → hasKey cur name = true →
      normalizeForeignKey (lookupD prev name zeroFK) =
        normalizeForeignKey (lookupD cur name zeroFK) →
      fkDropOpFor tableName prev cur name = none ∧
      fkChangedAddOpFor tableName prev cur name = none ∧
      fkNewAddOpFor tableName prev cur name = none) := by
  have hcol : ∀ tableName : String, ∀ prev cur : tableState, ∀ col : String,
      hasKey prev.Columns col = true → hasKey cur.Columns col = true →
      normalizeDefinition (lookupD prev.Columns col zeroColumn).Definition =
        normalizeDefinition (lookupD cur.Columns col zeroColumn).Definition →
      columnOpForCur tableName prev cur col = none ∧
      columnOpForPrev tableName prev cur col = none := by
    intro tableName prev cur col hp hc hdef
    constructor
    · unfold columnOpForCur
      simp [hp, hdef]
    · unfold columnOpForPrev
      simp [hc]
  have hidx : ∀ tableName : String, ∀ prev cur : tableState, ∀ idx : String,
      hasKey prev.Indexes idx = true → hasKey cur.Indexes idx = true →
      normalizeIndex (lookupD prev.Indexes idx zeroIndex) =
        normalizeIndex (lookupD cur.Indexes idx zeroIndex) →
      indexOpForCur tableName prev cur idx = none ∧
      indexOpForPrev tableName prev cur idx = none := by
    intro tableName prev cur idx hp hc hdef
    constructor
    · unfold indexOpForCur
      simp [hp, hdef]
    · unfold indexOpForPrev
      simp [hc]
  have hfk : ∀ tableName : String, ∀ prev cur : List (String × foreignKeyState), ∀ name : String,
      hasKey prev name = true → hasKey cur name = true →
      normalizeForeignKey (lookupD prev name zeroFK) =
        normalizeForeignKey (lookupD cur name zeroFK) →
      fkDropOpFor tableName prev cur name = none ∧
      fkChangedAddOpFor tableName prev cur name = none ∧
      fkNewAddOpFor tableName prev cur name = none := by
    intro tableName prev cur name hp hc hdef
    refine ⟨?_, ?_, ?_⟩
    · unfold fkDropOpFor
      simp [hc, hdef]
    · unfold fkChangedAddOpFor
      simp [hc, hdef]
    · unfold fkNewAddOpFor
      simp [hp]
  have htab : ∀ tableName : String, ∀ ts : tableState, diffTable tableName ts ts = [] := by
    intro tableName ts
    unfold diffTable
    have hfkpair : diffForeignKeys tableName ts.ForeignKeys ts.ForeignKeys = ([], []) := by
      unfold diffForeignKeys
      rw [opLoop_eq_filterMap, opLoop_eq_filterMap, opLoop_eq_filterMap]
      refine Prod.ext ?_ ?_
      · simp only
        rw [List.filterMap_eq_nil_iff.mpr]
        intro a ha
        exact (hfk tableName ts.ForeignKeys ts.ForeignKeys a
          (hasKey_of_mem_sortedKeys _ _ ha) (hasKey_of_mem_sortedKeys _ _ ha) rfl).1
      · simp only
        rw [List.filterMap_eq_nil_iff.mpr, List.filterMap_eq_nil_iff.mpr, List.append_nil]
        · intro a ha
          exact (hfk tableName ts.ForeignKeys ts.ForeignKeys a
            (hasKey_of_mem_sortedKeys _ _ ha) (hasKey_of_mem_sortedKeys _ _ ha) rfl).2.2
        · intro a ha
          exact (hfk tableName ts.ForeignKeys ts.ForeignKeys a
            (hasKey_of_mem_sortedKeys _ _ ha) (hasKey_of_mem_sortedKeys _ _ ha) rfl).2.1
    rw [hfkpair]
    simp only [List.nil_append, List.append_nil]
    rw [opLoop_eq_filterMap, opLoop_eq_filterMap, opLoop_eq_filterMap, opLoop_eq_filterMap]
    rw [List.filterMap_eq_nil_iff.mpr (fun a ha =>
          (hcol tableName ts ts a (hasKey_of_mem_sortedKeys _ _ ha)
            (hasKey_of_mem_sortedKeys _ _ ha) rfl).1),
        List.filterMap_eq_nil_iff.mpr (fun a ha =>
          (hcol tableName ts ts a (hasKey_of_mem_sortedKeys _ _ ha)
            (hasKey_of_mem_sortedKeys _ _ ha) rfl).2),
        List.filterMap_eq_nil_iff.mpr (fun a ha =>
          (hidx tableName ts ts a (hasKey_of_mem_sortedKeys _ _ ha)
            (hasKey_of_mem_sortedKeys _ _ ha) rfl).1),
        List.filterMap_eq_nil_iff.mpr (fun a ha =>
          (hidx tableName ts ts a (hasKey_of_mem_sortedKeys _ _ ha)
            (hasKey_of_mem_sortedKeys _ _ ha) rfl).2)]
    simp
  refine ⟨?_, htab, hcol, hidx, hfk⟩
  intro S
  have hops : buildDiffOps S S = [] := by
    unfold buildDiffOps
    rw [opLoop_eq_filterMap, opsLoop_eq_flatMap, opsLoop_eq_flatMap, opsLoop_eq_flatMap]
    rw [List.filterMap_eq_nil_iff.mpr, List.flatMap_eq_nil_iff.mpr,
      List.flatMap_eq_nil_iff.mpr, List.flatMap_eq_nil_iff.mpr]
    · simp
    · intro a ha
      unfold bothTableOpsFor
      simp [hasKey_of_mem_sortedKeys _ _ ha, htab]
    · intro a ha
      unfold droppedTableOpsFor
      simp [hasKey_of_mem_sortedKeys _ _ ha]
    · intro a ha
      unfold newTableFkFor
      simp [hasKey_of_mem_sortedKeys _ _ ha]
    · intro a ha
      unfold newTableOpFor
      simp [hasKey_of_mem_sortedKeys _ _ ha]
  unfold buildDiff
  rw [hops]
  rfl

/-- Sample index used by concrete witness instances. -/
def wIdx : indexState :=
  { Class := "UNIQUE", Type' := "", Where := "", Comment := "", Option := ""
    Fields := [{ Column := "name", Expression := "", Sort' := "", Collate := "", Length := 0 }] }

/-- Sample foreign key used by concrete witness instances. -/
def wFK : foreignKeyState :=
  { Columns := ["org_id"], RefTable := "orgs", RefColumns := ["id"]
    OnDelete := "SET NULL", OnUpdate := "CASCADE" }

/-- Sample table used by concrete witness instances. -/
def wTable : tableState :=
  { Columns := [("id", ⟨"bigint unsigned"⟩), ("name", ⟨"varchar(128)"⟩)]
    Indexes := [("idx_name", wIdx)]
    ForeignKeys := [("fk_org", wFK)]
    PrimaryKeys := ["id"] }

/-- Sample schema state used by concrete witness instances. -/
def wState : schemaState := ⟨[("t_users", wTable)]⟩

/-- Concrete instance of `diff_idempotent_and_skips_unchanged`. -/
theorem diff_idempotent_and_skips_unchanged_witness :
    buildDiff wState wState = ([], []) ∧
    diffTable "t_users" wTable wTable = [] ∧
    columnOpForCur "t_users" wTable wTable "id" = none ∧
    indexOpForCur "t_users" wTable wTable "idx_name" = none ∧
    fkDropOpFor "t_users" wTable.ForeignKeys wTable.ForeignKeys "fk_org" = none :=
  ⟨diff_idempotent_and_skips_unchanged.1 wState,
   diff_idempotent_and_skips_unchanged.2.1 "t_users" wTable,
   (diff_idempotent_and_skips_unchanged.2.2.1 "t_users" wTable wTable "id"
     (by decide) (by decide) (by decide)).1,
   (diff_idempotent_and_skips_unchanged.2.2.2.1 "t_users" wTable wTable "idx_name"
     (by decide) (by decide) (by decide)).1,
   (diff_idempotent_and_skips_unchanged.2.2.2.2 "t_users" wTable.ForeignKeys
     wTable.ForeignKeys "fk_org" (by decide) (by decide) (by decide)).1⟩

/-- **C2.** For every pair of schema states, the up-statement list returned
by `buildDiff` is the sequence of non-blank `up` texts of the generated
operation pairs in emission order, and the down-statement list is the
sequence of non-blank `down` texts of the same operation pairs in reverse
emission order. -/
theorem buildDiff_up_down_extraction (previous current : schemaState) :
    buildDiff previous current =
      (((buildDiffOps previous current).filter
          (fun op => ! (trimSpace op.up == ""))).map (fun op => op.up),
       ((buildDiffOps previous current).reverse.filter
          (fun op => ! (trimSpace op.down == ""))).map (fun op => op.down)) := by
  unfold buildDiff
  rw [upLoop_eq_filter_map, downLoop_eq_filter_map]

/-! ## Claim theorem: PRIMARY KEY clause order -/

theorem joinSep_infix (sep : String) (y : String) (xs ys : List String) :
    ∃ a b, joinSep sep (xs ++ y :: ys) = a ++ y ++ b := by
  induction xs with
  | nil =>
    cases ys with
    | nil => exact ⟨"", "", by simp [joinSep]⟩
    | cons z zs =>
      exact ⟨"", sep ++ joinSep sep (z :: zs), by simp [joinSep, String.append_assoc]⟩
  | cons x xs ih =>
    obtain ⟨a, b, hab⟩ := ih
    obtain ⟨z, L, hz⟩ : ∃ z L, xs ++ y :: ys = z :: L := by
      cases xs <;> exact ⟨_, _, rfl⟩
    refine ⟨x ++ sep ++ a, b, ?_⟩
    have : joinSep sep ((x :: xs) ++ y :: ys) = x ++ sep ++ joinSep sep (xs ++ y :: ys) := by
      rw [List.cons_append, hz]
      rfl
    rw [this, hab]
    simp [String.append_assoc]

/-- **C5.** For every table state with a non-empty (possibly composite)
primary key, the rendered CREATE TABLE body contains a
`PRIMARY KEY (...)` clause listing the back-tick-quoted primary-key
columns exactly in the order of the `PrimaryKeys` field — not re-sorted. -/
theorem createTableSQL_primary_key_clause (tableName : String) (table : tableState)
    (h : table.PrimaryKeys ≠ []) :
    ∃ pre post, createTableSQL tableName table =
      pre ++ ("PRIMARY KEY (" ++
        joinSep ", " (table.PrimaryKeys.map (fun pk => "`" ++ pk ++ "`")) ++ ")") ++ post := by
  have hlen : table.PrimaryKeys.length > 0 := List.length_pos.mpr h
  unfold createTableSQL
  simp only [hlen, if_true, if_pos]
  set colDefs := (sortedKeys table.Columns).map
    (fun col => "  `" ++ col ++ "` " ++ (lookupD table.Columns col zeroColumn).Definition)
    with hcolDefs
  set idxDefs := (sortedKeys table.Indexes).map
    (fun indexName => "  " ++ createTableIndexDefinition indexName (lookupD table.Indexes indexName zeroIndex))
    with hidxDefs
  set pkStr := "  PRIMARY KEY (" ++
    joinSep ", " (table.PrimaryKeys.map (fun pk => "`" ++ pk ++ "`")) ++ ")" with hpkStr
  have hsplit2 : ("  PRIMARY KEY (" : String) = "  " ++ "PRIMARY KEY (" := by decide
  have hlist : colDefs ++ [pkStr] ++ idxDefs = colDefs ++ pkStr :: idxDefs := by
    simp
  rw [hlist]
  obtain ⟨a, b, hab⟩ := joinSep_infix ",\n" pkStr colDefs idxDefs
  rw [hab]
  refine ⟨"CREATE TABLE `" ++ tableName ++ "` (\n" ++ a ++ "  ", b ++ "\n);", ?_⟩
  rw [hpkStr]
  simp only [String.append_assoc]
  rw [hsplit2]
  simp only [String.append_assoc]

/-! ## Claim theorems: changed indexes and modified foreign keys -/

/-- **C8.** For every index name present in both table states whose
normalized `indexState` differs in any field, the diff emits a single
operation whose `up` text is DROP INDEX followed by CREATE INDEX with the
new definition and whose `down` text is DROP INDEX followed by CREATE
INDEX with the old definition. -/
theorem index_change_drop_and_recreate (tableName : String) (prev cur : tableState)
    (idx : String) (hp : hasKey prev.Indexes idx = true)
    (hne : normalizeIndex (lookupD prev.Indexes idx zeroIndex) ≠
           normalizeIndex (lookupD cur.Indexes idx zeroIndex)) :
    indexOpForCur tableName prev cur idx =
      some { up := dropIndexSQL tableName idx ++ "\n" ++
                   createIndexSQL tableName idx (lookupD cur.Indexes idx zeroIndex)
             down := dropIndexSQL tableName idx ++ "\n" ++
                     createIndexSQL tableName idx (lookupD prev.Indexes idx zeroIndex) } := by
  unfold indexOpForCur
  simp [hp, hne]

/-- The non-unique index `idx_b` on column `b` of the witness scenario. -/
def wIdxB : indexState :=
  { Class := "", Type' := "", Where := "", Comment := "", Option := ""
    Fields := [{ Column := "b", Expression := "", Sort' := "", Collate := "", Length := 0 }] }

/-- The unique variant of `wIdxB`. -/
def wIdxBU : indexState := { wIdxB with Class := "UNIQUE" }

/-- Witness table (previous): non-unique `idx_b`. -/
def wTblIdxPrev : tableState :=
  { Columns := [("b", ⟨"int"⟩)], Indexes := [("idx_b", wIdxB)], ForeignKeys := [], PrimaryKeys := [] }

/-- Witness table (current): unique `idx_b`. -/
def wTblIdxCur : tableState :=
  { Columns := [("b", ⟨"int"⟩)], Indexes := [("idx_b", wIdxBU)], ForeignKeys := [], PrimaryKeys := [] }

/-- Concrete instance of `index_change_drop_and_recreate`: `idx_b` on `t`
changes from non-unique to unique, giving the drop-then-recreate pair of
the spec's scenario. -/
theorem index_change_drop_and_recreate_witness :
    indexOpForCur "t" wTblIdxPrev wTblIdxCur "idx_b" =
      some { up := "DROP INDEX `idx_b` ON `t`;\nCREATE UNIQUE INDEX `idx_b` ON `t` (`b`);"
             down := "DROP INDEX `idx_b` ON `t`;\nCREATE INDEX `idx_b` ON `t` (`b`);" } := by
  rw [index_change_drop_and_recreate "t" wTblIdxPrev wTblIdxCur "idx_b"
    (by decide) (by decide)]
  decide

/-- **C9.** A foreign key present in both table states whose normalized
definitions differ yields both a drop operation (inverse: the old
definition) and a separate add operation (inverse: a drop) — never an
in-place alter — and the per-table diff places all foreign-key drop
operations before the column and index operations and all foreign-key add
operations after them. -/
theorem fk_modify_drop_then_add :
    (∀ tableName : String, ∀ prev cur : tableState,
      diffTable tableName prev cur =
        (diffForeignKeys tableName prev.ForeignKeys cur.ForeignKeys).1 ++
        (opLoop (columnOpForCur tableName prev cur) (sortedKeys cur.Columns) ++
         opLoop (columnOpForPrev tableName prev cur) (sortedKeys prev.Columns) ++
         opLoop (indexOpForCur tableName prev cur) (sortedKeys cur.Indexes) ++
         opLoop (indexOpForPrev tableName prev cur) (sortedKeys prev.Indexes)) ++
        (diffForeignKeys tableName prev.ForeignKeys cur.ForeignKeys).2) ∧
    (∀ tableName : String, ∀ prev cur : List (String × foreignKeyState), ∀ name : String,
      hasKey prev name = true → hasKey cur name = true →
      normalizeForeignKey (lookupD prev name zeroFK) ≠
        normalizeForeignKey (lookupD cur name zeroFK) →
      fkDropOpFor tableName prev cur name =
        some { up := dropForeignKeySQL tableName name
               down := createForeignKeySQL tableName name (lookupD prev name zeroFK) } ∧
      fkChangedAddOpFor tableName prev cur name =
        some { up := createForeignKeySQL tableName name (lookupD cur name zeroFK)
               down := dropForeignKeySQL tableName name }) := by
  constructor
  · intro tableName prev cur
    unfold diffTable
    simp [List.append_assoc]
  · intro tableName prev cur name hp hc hne
    constructor
    · unfold fkDropOpFor
      simp [hc, hne]
    · unfold fkChangedAddOpFor
      simp [hc, hne]

/-- Foreign key with `ON DELETE CASCADE` for the modify-constraint witness. -/
def wFKCascade : foreignKeyState :=
  { Columns := ["parent_id"], RefTable := "parents", RefColumns := ["id"]
    OnDelete := "CASCADE", OnUpdate := "CASCADE" }

/-- Same foreign key with its delete action changed to `SET NULL`. -/
def wFKSetNull : foreignKeyState := { wFKCascade with OnDelete := "SET NULL" }

/-- Concrete instance of `fk_modify_drop_then_add`: changing
`fk_children_parent`'s ON DELETE action produces a drop and a separate
add, and the per-table diff keeps foreign-key drops first and adds last. -/
theorem fk_modify_drop_then_add_witness :
    diffTable "children" wTblIdxPrev wTblIdxCur =
      (diffForeignKeys "children" wTblIdxPrev.ForeignKeys wTblIdxCur.ForeignKeys).1 ++
      (opLoop (columnOpForCur "children" wTblIdxPrev wTblIdxCur) (sortedKeys wTblIdxCur.Columns) ++
       opLoop (columnOpForPrev "children" wTblIdxPrev wTblIdxCur) (sortedKeys wTblIdxPrev.Columns) ++
       opLoop (indexOpForCur "children" wTblIdxPrev wTblIdxCur) (sortedKeys wTblIdxCur.Indexes) ++
       opLoop (indexOpForPrev "children" wTblIdxPrev wTblIdxCur) (sortedKeys wTblIdxPrev.Indexes)) ++
      (diffForeignKeys "children" wTblIdxPrev.ForeignKeys wTblIdxCur.ForeignKeys).2 ∧
    fkDropOpFor "children" [("fk_children_parent", wFKCascade)]
        [("fk_children_parent", wFKSetNull)] "fk_children_parent" =
      some { up := dropForeignKeySQL "children" "fk_children_parent"
             down := createForeignKeySQL "children" "fk_children_parent"
               (lookupD [("fk_children_parent", wFKCascade)] "fk_children_parent" zeroFK) } ∧
    fkChangedAddOpFor "children" [("fk_children_parent", wFKCascade)]
        [("fk_children_parent", wFKSetNull)] "fk_children_parent" =
      some { up := createForeignKeySQL "children" "fk_children_parent"
               (lookupD [("fk_children_parent", wFKSetNull)] "fk_children_parent" zeroFK)
             down := dropForeignKeySQL "children" "fk_children_parent" } :=
  ⟨fk_modify_drop_then_add.1 "children" wTblIdxPrev wTblIdxCur,
   (fk_modify_drop_then_add.2 "children" [("fk_children_parent", wFKCascade)]
     [("fk_children_parent", wFKSetNull)] "fk_children_parent"
     (by decide) (by decide) (by decide)).1,
   (fk_modify_drop_then_add.2 "children" [("fk_children_parent", wFKCascade)]
     [("fk_children_parent", wFKSetNull)] "fk_children_parent"
     (by decide) (by decide) (by decide)).2⟩

/-! ## Every emitted SQL statement is non-blank

The statements all start with a non-whitespace literal (`CREATE`, `DROP`,
`ALTER`), so trimming never empties them; the only blank texts in the
operation stream are the `up` sides of the foreign-key restore
operations synthesized for dropped tables. -/

/-- `true` iff the string starts with a non-whitespace character. -/
def headNonSpace (s : String) : Bool :=
  match s.data with
  | [] => false
  | c :: _ => ! c.isWhitespace

theorem dropWhile_append_last (l : List Char) (c : Char) (h : c.isWhitespace = false) :
    (l ++ [c]).dropWhile Char.isWhitespace ≠ [] := by
  induction l with
  | nil => simp [List.dropWhile, h]
  | cons x xs ih =>
    by_cases hx : x.isWhitespace <;> simp [List.dropWhile_cons, hx, ih]

theorem trim_ne_empty (s : String) (h : headNonSpace s = true) : trimSpace s ≠ "" := by
  unfold headNonSpace at h
  unfold trimSpace
  obtain ⟨c, cs, hdata⟩ : ∃ c cs, s.data = c :: cs := by
    cases hs : s.data with
    | nil => rw [hs] at h; simp at h
    | cons c cs => exact ⟨c, cs, rfl⟩
  rw [hdata] at h ⊢
  simp only [Bool.not_eq_true'] at h
  rw [List.dropWhile_cons, h]
  simp only [Bool.false_eq_true, if_false]
  intro heq
  have hli : ((((c :: cs).reverse).dropWhile Char.isWhitespace).reverse) = [] := by
    have := congrArg String.data heq
    simpa using this
  rw [List.reverse_eq_nil_iff] at hli
  rw [List.reverse_cons] at hli
  exact dropWhile_append_last cs.reverse c h hli

theorem headNonSpace_append (a b : String) (h : headNonSpace a = true) :
    headNonSpace (a ++ b) = true := by
  unfold headNonSpace at h ⊢
  rw [String.data_append]
  cases ha : a.data with
  | nil => rw [ha] at h; simp at h
  | cons c cs => rw [ha] at h; simpa using h

theorem headNonSpace_joinSep_cons (sep x : String) (l : List String)
    (h : headNonSpace x = true) : headNonSpace (joinSep sep (x :: l)) = true := by
  cases l with
  | nil => exact h
  | cons y ys =>
    show headNonSpace (x ++ sep ++ joinSep sep (y :: ys)) = true
    exact headNonSpace_append _ _ (headNonSpace_append _ _ h)

theorem headNonSpace_createTableSQL (t : String) (tbl : tableState) :
    headNonSpace (createTableSQL t tbl) = true := by
  unfold createTableSQL
  repeat' apply headNonSpace_append
  decide

theorem headNonSpace_dropTableSQL (t : String) :
    headNonSpace (dropTableSQL t) = true := by
  unfold dropTableSQL
  apply headNonSpace_append
  apply headNonSpace_append
  decide

theorem headNonSpace_dropIndexSQL (t i : String) :
    headNonSpace (dropIndexSQL t i) = true := by
  unfold dropIndexSQL
  apply headNonSpace_append
  apply headNonSpace_append
  apply headNonSpace_append
  apply headNonSpace_append
  decide

theorem headNonSpace_createIndexSQL (t i : String) (idx : indexState) :
    headNonSpace (createIndexSQL t i idx) = true := by
  unfold createIndexSQL
  dsimp only
  split_ifs <;> apply headNonSpace_append <;>
    (repeat' apply headNonSpace_append) <;> decide

theorem headNonSpace_createForeignKeySQL (t n : String) (fk : foreignKeyState) :
    headNonSpace (createForeignKeySQL t n fk) = true := by
  unfold createForeignKeySQL
  dsimp only
  apply headNonSpace_append
  split_ifs <;>
    (try simp only [List.cons_append, List.nil_append, List.append_assoc]) <;>
    apply headNonSpace_joinSep_cons <;>
    (repeat' apply headNonSpace_append) <;> decide

theorem headNonSpace_dropForeignKeySQL (t n : String) :
    headNonSpace (dropForeignKeySQL t n) = true := by
  unfold dropForeignKeySQL
  apply headNonSpace_append
  apply headNonSpace_append
  apply headNonSpace_append
  apply headNonSpace_append
  decide

theorem mem_opLoop {f : String → Option migrationOp} {l : List String} {op : migrationOp}
    (h : op ∈ opLoop f l) : ∃ x ∈ l, f x = some op := by
  rw [opLoop_eq_filterMap] at h
  exact List.mem_filterMap.mp h

theorem mem_opsLoop {f : String → List migrationOp} {l : List String} {op : migrationOp}
    (h : op ∈ opsLoop f l) : ∃ x ∈ l, op ∈ f x := by
  rw [opsLoop_eq_flatMap] at h
  exact List.mem_flatMap.mp h

theorem diffTable_up_good (t : String) (a b : tableState) :
    ∀ op ∈ diffTable t a b, trimSpace op.up ≠ "" := by
  intro op hop
  unfold diffTable at hop
  simp only [List.append_assoc, List.mem_append] at hop
  rcases hop with h | h | h | h | h | h
  · obtain ⟨x, _, heq⟩ := mem_opLoop h
    unfold fkDropOpFor at heq
    split_ifs at heq <;> injection heq with h2 <;> subst h2 <;>
      exact trim_ne_empty _ (headNonSpace_dropForeignKeySQL t x)
  · obtain ⟨x, _, heq⟩ := mem_opLoop h
    unfold columnOpForCur at heq
    split_ifs at heq <;> injection heq with h2 <;> subst h2 <;>
      exact trim_ne_empty _ (by (repeat' apply headNonSpace_append); decide)
  · obtain ⟨x, _, heq⟩ := mem_opLoop h
    unfold columnOpForPrev at heq
    split_ifs at heq
    injection heq with h2
    subst h2
    exact trim_ne_empty _ (by (repeat' apply headNonSpace_append); decide)
  · obtain ⟨x, _, heq⟩ := mem_opLoop h
    unfold indexOpForCur at heq
    split_ifs at heq <;> injection heq with h2 <;> subst h2
    · first
      | exact trim_ne_empty _ (headNonSpace_createIndexSQL t x _)
      | exact trim_ne_empty _ (headNonSpace_append _ _
          (headNonSpace_append _ _ (headNonSpace_dropIndexSQL t x)))
    · first
      | exact trim_ne_empty _ (headNonSpace_createIndexSQL t x _)
      | exact trim_ne_empty _ (headNonSpace_append _ _
          (headNonSpace_append _ _ (headNonSpace_dropIndexSQL t x)))
  · obtain ⟨x, _, heq⟩ := mem_opLoop h
    unfold indexOpForPrev at heq
    split_ifs at heq
    injection heq with h2
    subst h2
    exact trim_ne_empty _ (headNonSpace_dropIndexSQL t x)
  · rcases List.mem_append.mp h with h' | h'
    · obtain ⟨x, _, heq⟩ := mem_opLoop h'
      unfold fkChangedAddOpFor at heq
      split_ifs at heq <;> injection heq with h2 <;> subst h2 <;>
        exact trim_ne_empty _ (headNonSpace_createForeignKeySQL t x _)
    · obtain ⟨x, _, heq⟩ := mem_opLoop h'
      unfold fkNewAddOpFor at heq
      split_ifs at heq
      injection heq with h2
      subst h2
      exact trim_ne_empty _ (headNonSpace_createForeignKeySQL t x _)

theorem diffTable_down_good (t : String) (a b : tableState) :
    ∀ op ∈ diffTable t a b, trimSpace op.down ≠ "" := by
  intro op hop
  unfold diffTable at hop
  simp only [List.append_assoc, List.mem_append] at hop
  rcases hop with h | h | h | h | h | h
  · obtain ⟨x, _, heq⟩ := mem_opLoop h
    unfold fkDropOpFor at heq
    split_ifs at heq <;> injection heq with h2 <;> subst h2 <;>
      exact trim_ne_empty _ (headNonSpace_createForeignKeySQL t x _)
  · obtain ⟨x, _, heq⟩ := mem_opLoop h
    unfold columnOpForCur at heq
    split_ifs at heq <;> injection heq with h2 <;> subst h2 <;>
      exact trim_ne_empty _ (by (repeat' apply headNonSpace_append); decide)
  · obtain ⟨x, _, heq⟩ := mem_opLoop h
    unfold columnOpForPrev at heq
    split_ifs at heq
    injection heq with h2
    subst h2
    exact trim_ne_empty _ (by (repeat' apply headNonSpace_append); decide)
  · obtain ⟨x, _, heq⟩ := mem_opLoop h
    unfold indexOpForCur at heq
    split_ifs at heq <;> injection heq with h2 <;> subst h2
    · first
      | exact trim_ne_empty _ (headNonSpace_dropIndexSQL t x)
      | exact trim_ne_empty _ (headNonSpace_append _ _
          (headNonSpace_append _ _ (headNonSpace_dropIndexSQL t x)))
    · first
      | exact trim_ne_empty _ (headNonSpace_dropIndexSQL t x)
      | exact trim_ne_empty _ (headNonSpace_append _ _
          (headNonSpace_append _ _ (headNonSpace_dropIndexSQL t x)))
  · obtain ⟨x, _, heq⟩ := mem_opLoop h
    unfold indexOpForPrev at heq
    split_ifs at heq
    injection heq with h2
    subst h2
    exact trim_ne_empty _ (headNonSpace_createIndexSQL t x _)
  · rcases List.mem_append.mp h with h' | h'
    · obtain ⟨x, _, heq⟩ := mem_opLoop h'
      unfold fkChangedAddOpFor at heq
      split_ifs at heq <;> injection heq with h2 <;> subst h2 <;>
        exact trim_ne_empty _ (headNonSpace_dropForeignKeySQL t x)
    · obtain ⟨x, _, heq⟩ := mem_opLoop h'
      unfold fkNewAddOpFor at heq
      split_ifs at heq
      injection heq with h2
      subst h2
      exact trim_ne_empty _ (headNonSpace_dropForeignKeySQL t x)

theorem buildDiffOps_down_good (p c : schemaState) :
    ∀ op ∈ buildDiffOps p c, trimSpace op.down ≠ "" := by
  intro op hop
  unfold buildDiffOps at hop
  simp only [List.append_assoc, List.mem_append] at hop
  rcases hop with h | h | h | h
  · obtain ⟨x, _, heq⟩ := mem_opLoop h
    unfold newTableOpFor at heq
    split_ifs at heq
    injection heq with h2
    subst h2
    exact trim_ne_empty _ (headNonSpace_dropTableSQL x)
  · obtain ⟨x, _, hmem⟩ := mem_opsLoop h
    unfold newTableFkFor at hmem
    split_ifs at hmem
    · simp at hmem
    · unfold addForeignKeyOpsForNewTable at hmem
      obtain ⟨n, _, heq⟩ := List.mem_map.mp hmem
      subst heq
      exact trim_ne_empty _ (headNonSpace_dropForeignKeySQL x n)
  · obtain ⟨x, _, hmem⟩ := mem_opsLoop h
    unfold droppedTableOpsFor at hmem
    split_ifs at hmem
    · simp at hmem
    · rcases List.mem_append.mp hmem with h' | h'
      · unfold restoreForeignKeyOpsForDroppedTable at h'
        obtain ⟨n, _, heq⟩ := List.mem_map.mp h'
        subst heq
        exact trim_ne_empty _ (headNonSpace_createForeignKeySQL x n _)
      · rw [List.mem_singleton] at h'
        subst h'
        exact trim_ne_empty _ (headNonSpace_createTableSQL x _)
  · obtain ⟨x, _, hmem⟩ := mem_opsLoop h
    unfold bothTableOpsFor at hmem
    split_ifs at hmem
    · exact diffTable_down_good x _ _ op hmem
    · simp at hmem

theorem upLoop_nil_of_good (l : List migrationOp)
    (hg : ∀ op ∈ l, trimSpace op.up ≠ "") : upLoop l = [] ↔ l = [] := by
  rw [upLoop_eq_filter_map]
  rw [List.filter_eq_self.mpr (fun op hop => by simpa using hg op hop)]
  simp

theorem downLoop_nil_of_good (l : List migrationOp)
    (hg : ∀ op ∈ l, trimSpace op.down ≠ "") : downLoop l = [] ↔ l = [] := by
  rw [downLoop_eq_filter_map]
  rw [List.filter_eq_self.mpr (fun op hop => by
    simpa using hg op (List.mem_reverse.mp hop))]
  simp

theorem upLoop_restore_nil (t : String) (tbl : tableState) :
    upLoop (restoreForeignKeyOpsForDroppedTable t tbl) = [] := by
  unfold restoreForeignKeyOpsForDroppedTable
  generalize sortedKeys tbl.ForeignKeys = names
  induction names with
  | nil => rfl
  | cons n ns ih => simpa [upLoop, show trimSpace "" = "" from rfl] using ih

theorem upLoop_opsLoop_iff (f : String → List migrationOp) (l : List String)
    (hf : ∀ t ∈ l, (upLoop (f t) = [] ↔ f t = [])) :
    upLoop (opsLoop f l) = [] ↔ opsLoop f l = [] := by
  induction l with
  | nil => simp [opsLoop, upLoop]
  | cons t ts ih =>
    have ih' := ih (fun t' ht' => hf t' (by simp [ht']))
    simp only [opsLoop, upLoop_append, List.append_eq_nil]
    constructor
    · rintro ⟨h1, h2⟩
      exact ⟨(hf t (by simp)).mp h1, ih'.mp h2⟩
    · rintro ⟨h1, h2⟩
      exact ⟨by rw [h1]; rfl, ih'.mpr h2⟩

theorem droppedFor_upLoop_iff (p c : schemaState) (t : String) :
    upLoop (droppedTableOpsFor p c t) = [] ↔ droppedTableOpsFor p c t = [] := by
  unfold droppedTableOpsFor
  split_ifs
  · simp [upLoop]
  · rw [upLoop_append, upLoop_restore_nil]
    have hdr : trimSpace (dropTableSQL t) ≠ "" :=
      trim_ne_empty _ (headNonSpace_dropTableSQL t)
    constructor
    · intro hcontra
      simp [upLoop, hdr] at hcontra
    · intro hcontra
      simp at hcontra

/-- **C10.** For every pair of schema states, the diff's up-statement list
is empty exactly when the whole operation stream is empty, and hence the
up list is empty if and only if the down list is empty: the down-only
foreign-key restore operations synthesized for a dropped table are always
accompanied by that table's DROP TABLE operation, whose up text is
non-blank, so `MakeMigrations` deciding "no change" from the up list
alone never discards a non-empty down script. -/
theorem up_empty_iff_down_empty (p c : schemaState) :
    ((buildDiff p c).1 = [] ↔ buildDiffOps p c = []) ∧
    ((buildDiff p c).1 = [] ↔ (buildDiff p c).2 = []) := by
  have hS1 : ∀ op ∈ opLoop (newTableOpFor p c) (sortedKeys c.Tables),
      trimSpace op.up ≠ "" := by
    intro op h
    obtain ⟨x, _, heq⟩ := mem_opLoop h
    unfold newTableOpFor at heq
    split_ifs at heq
    injection heq with h2
    subst h2
    exact trim_ne_empty _ (headNonSpace_createTableSQL x _)
  have hS2 : ∀ op ∈ opsLoop (newTableFkFor p c) (sortedKeys c.Tables),
      trimSpace op.up ≠ "" := by
    intro op h
    obtain ⟨x, _, hmem⟩ := mem_opsLoop h
    unfold newTableFkFor at hmem
    split_ifs at hmem
    · simp at hmem
    · unfold addForeignKeyOpsForNewTable at hmem
      obtain ⟨n, _, heq⟩ := List.mem_map.mp hmem
      subst heq
      exact trim_ne_empty _ (headNonSpace_createForeignKeySQL x n _)
  have hS4 : ∀ op ∈ opsLoop (bothTableOpsFor p c) (sortedKeys c.Tables),
      trimSpace op.up ≠ "" := by
    intro op h
    obtain ⟨x, _, hmem⟩ := mem_opsLoop h
    unfold bothTableOpsFor at hmem
    split_ifs at hmem
    · exact diffTable_up_good x _ _ op hmem
    · simp at hmem
  have hOps : (buildDiff p c).1 = [] ↔ buildDiffOps p c = [] := by
    show upLoop (buildDiffOps p c) = [] ↔ _
    unfold buildDiffOps
    rw [upLoop_append, upLoop_append, upLoop_append]
    simp only [List.append_eq_nil]
    rw [upLoop_nil_of_good _ hS1, upLoop_nil_of_good _ hS2, upLoop_nil_of_good _ hS4,
      upLoop_opsLoop_iff _ _ (fun t _ => droppedFor_upLoop_iff p c t)]
  have hDown : (buildDiff p c).2 = [] ↔ buildDiffOps p c = [] := by
    show downLoop (buildDiffOps p c) = [] ↔ _
    exact downLoop_nil_of_good _ (buildDiffOps_down_good p c)
  exact ⟨hOps, hOps.trans hDown.symm⟩

/-- Concrete instance of `up_empty_iff_down_empty`: dropping the only table
of the witness state yields both a non-empty up list and a non-empty down
list. -/
theorem up_empty_iff_down_empty_witness :
    (buildDiff wState ⟨[]⟩).1 ≠ [] ∧ (buildDiff wState ⟨[]⟩).2 ≠ [] :=
  ⟨by decide,
   fun h => absurd ((up_empty_iff_down_empty wState ⟨[]⟩).2.mpr h) (by decide)⟩

/-! ## Snapshot store (`saveState` / `loadState`)

Go marshals the snapshot with `encoding/json` and reads it back with
`json.Unmarshal`.  The byte-level JSON grammar (lexing/printing) is the
standard library's; the model works at the level of JSON documents: a
document type `Json`, an encoder following the struct tags of
`generator.go` (field order, `omitempty`, map keys sorted as
`encoding/json` does), and a decoder following `json.Unmarshal`'s
semantics (`null` and missing fields produce zero values, unknown fields
are ignored, a kind mismatch is an error).  Go's `nil` slices/maps and
their empty counterparts are both modelled by `[]`. -/

/-- JSON documents. -/
inductive Json where
  | null
  | bool (b : Bool)
  | num (n : Int)
  | str (s : String)
  | arr (elems : List Json)
  | obj (fields : List (String × Json))

/-- A string struct field under `omitempty`. -/
def optStr (k v : String) : List (String × Json) :=
  if v = "" then [] else [(k, .str v)]

/-- An int struct field under `omitempty`. -/
def optNum (k : String) (n : Int) : List (String × Json) :=
  if n = 0 then [] else [(k, .num n)]

/-- Marshal of `columnState`. -/
def encodeColumn (c : columnState) : Json :=
  .obj [("definition", .str c.Definition)]

/-- Marshal of `indexFieldState` (all fields `omitempty`). -/
def encodeIndexField (f : indexFieldState) : Json :=
  .obj (optStr "column" f.Column ++ optStr "expression" f.Expression ++
    optStr "sort" f.Sort' ++ optStr "collate" f.Collate ++ optNum "length" f.Length)

/-- Marshal of `indexState` (`fields` is not `omitempty`). -/
def encodeIndex (i : indexState) : Json :=
  .obj (optStr "class" i.Class ++ optStr "type" i.Type' ++ optStr "where" i.Where ++
    optStr "comment" i.Comment ++ optStr "option" i.Option ++
    [("fields", .arr (i.Fields.map encodeIndexField))])

/-- Marshal of `foreignKeyState`. -/
def encodeFK (fk : foreignKeyState) : Json :=
  .obj ([("columns", .arr (fk.Columns.map .str)),
         ("ref_table", .str fk.RefTable),
         ("ref_columns", .arr (fk.RefColumns.map .str))] ++
    optStr "on_delete" fk.OnDelete ++ optStr "on_update" fk.OnUpdate)

/-- Marshal of a name-keyed Go map: `encoding/json` emits object keys in
sorted order. -/
def encodeMapWith {α : Type} (enc : α → Json) (d : α) (m : List (String × α)) : Json :=
  .obj ((sortedKeys m).map (fun k => (k, enc (lookupD m k d))))

/-- Marshal of `tableState` (`indexes`, `foreign_keys`, `primary_keys` are
`omitempty`). -/
def encodeTable (t : tableState) : Json :=
  .obj ([("columns", encodeMapWith encodeColumn zeroColumn t.Columns)] ++
    (if t.Indexes = [] then [] else [("indexes", encodeMapWith encodeIndex zeroIndex t.Indexes)]) ++
    (if t.ForeignKeys = [] then []
     else [("foreign_keys", encodeMapWith encodeFK zeroFK t.ForeignKeys)]) ++
    (if t.PrimaryKeys = [] then []
     else [("primary_keys", .arr (t.PrimaryKeys.map .str))]))

/-- Marshal of `schemaState`. -/
def encodeState (s : schemaState) : Json :=
  .obj [("tables", encodeMapWith encodeTable zeroTable s.Tables)]

/-- Field lookup during unmarshalling; a missing field behaves like
`null` (the zero value is kept). -/
def getField (fields : List (String × Json)) (k : String) : Json :=
  match fields.find? (fun p => p.1 == k) with
  | some p => p.2
  | none => .null

/-- Unmarshal into a Go `string`. -/
def decodeString : Json → Except Unit String
  | .null => .ok ""
  | .str s => .ok s
  | _ => .error ()

/-- Unmarshal into a Go `int`. -/
def decodeInt : Json → Except Unit Int
  | .null => .ok 0
  | .num n => .ok n
  | _ => .error ()

/-- Unmarshal of the elements of a `[]string`. -/
def decodeStringElems : List Json → Except Unit (List String)
  | [] => .ok []
  | x :: xs =>
    match decodeString x, decodeStringElems xs with
    | .ok s, .ok rest => .ok (s :: rest)
    | .error e, _ => .error e
    | _, .error e => .error e

/-- Unmarshal into a `[]string`. -/
def decodeStringList : Json → Except Unit (List String)
  | .null => .ok []
  | .arr xs => decodeStringElems xs
  | _ => .error ()

/-- Unmarshal into a `columnState`. -/
def decodeColumn : Json → Except Unit columnState
  | .null => .ok zeroColumn
  | .obj fs =>
    match decodeString (getField fs "definition") with
    | .ok d => .ok ⟨d⟩
    | .error e => .error e
  | _ => .error ()

/-- Unmarshal into an `indexFieldState`. -/
def decodeIndexField : Json → Except Unit indexFieldState
  | .null => .ok ⟨"", "", "", "", 0⟩
  | .obj fs =>
    match decodeString (getField fs "column"), decodeString (getField fs "expression"),
          decodeString (getField fs "sort"), decodeString (getField fs "collate"),
          decodeInt (getField fs "length") with
    | .ok c, .ok e, .ok s, .ok co, .ok l => .ok ⟨c, e, s, co, l⟩
    | _, _, _, _, _ => .error ()
  | _ => .error ()

/-- Unmarshal of the elements of a `[]indexFieldState`. -/
def decodeIndexFieldElems : List Json → Except Unit (List indexFieldState)
  | [] => .ok []
  | x :: xs =>
    match decodeIndexField x, decodeIndexFieldElems xs with
    | .ok f, .ok rest => .ok (f :: rest)
    | _, _ => .error ()

/-- Unmarshal into a `[]indexFieldState`. -/
def decodeIndexFields : Json → Except Unit (List indexFieldState)
  | .null => .ok []
  | .arr xs => decodeIndexFieldElems xs
  | _ => .error ()

/-- Unmarshal into an `indexState`. -/
def decodeIndex : Json → Except Unit indexState
  | .null => .ok zeroIndex
  | .obj fs =>
    match decodeString (getField fs "class"), decodeString (getField fs "type"),
          decodeString (getField fs "where"), decodeString (getField fs "comment"),
          decodeString (getField fs "option"), decodeIndexFields (getField fs "fields") with
    | .ok cl, .ok ty, .ok wh, .ok co, .ok op, .ok flds => .ok ⟨cl, ty, wh, co, op, flds⟩
    | _, _, _, _, _, _ => .error ()
  | _ => .error ()

/-- Unmarshal into a `foreignKeyState`. -/
def decodeFK : Json → Except Unit foreignKeyState
  | .null => .ok zeroFK
  | .obj fs =>
    match decodeStringList (getField fs "columns"), decodeString (getField fs "ref_table"),
          decodeStringList (getField fs "ref_columns"),
          decodeString (getField fs "on_delete"), decodeString (getField fs "on_update") with
    | .ok cs, .ok rt, .ok rcs, .ok od, .ok ou => .ok ⟨cs, rt, rcs, od, ou⟩
    | _, _, _, _, _ => .error ()
  | _ => .error ()

/-- Unmarshal of the entries of a `map[string]columnState`. -/
def decodeColumnEntries : List (String × Json) → Except Unit (List (String × columnState))
  | [] => .ok []
  | (k, v) :: rest =>
    match decodeColumn v, decodeColumnEntries rest with
    | .ok c, .ok tail => .ok ((k, c) :: tail)
    | _, _ => .error ()

/-- Unmarshal into a `map[string]columnState`. -/
def decodeColumns : Json → Except Unit (List (String × columnState))
  | .null => .ok []
  | .obj fs => decodeColumnEntries fs
  | _ => .error ()

/-- Unmarshal of the entries of a `map[string]indexState`. -/
def decodeIndexEntries : List (String × Json) → Except Unit (List (String × indexState))
  | [] => .ok []
  | (k, v) :: rest =>
    match decodeIndex v, decodeIndexEntries rest with
    | .ok i, .ok tail => .ok ((k, i) :: tail)
    | _, _ => .error ()

/-- Unmarshal into a `map[string]indexState`. -/
def decodeIndexes : Json → Except Unit (List (String × indexState))
  | .null => .ok []
  | .obj fs => decodeIndexEntries fs
  | _ => .error ()

/-- Unmarshal of the entries of a `map[string]foreignKeyState`. -/
def decodeFKEntries : List (String × Json) → Except Unit (List (String × foreignKeyState))
  | [] => .ok []
  | (k, v) :: rest =>
    match decodeFK v, decodeFKEntries rest with
    | .ok fk, .ok tail => .ok ((k, fk) :: tail)
    | _, _ => .error ()

/-- Unmarshal into a `map[string]foreignKeyState`. -/
def decodeFKs : Json → Except Unit (List (String × foreignKeyState))
  | .null => .ok []
  | .obj fs => decodeFKEntries fs
  | _ => .error ()

/-- Unmarshal into a `tableState`. -/
def decodeTable : Json → Except Unit tableState
  | .null => .ok zeroTable
  | .obj fs =>
    match decodeColumns (getField fs "columns"), decodeIndexes (getField fs "indexes"),
          decodeFKs (getField fs "foreign_keys"),
          decodeStringList (getField fs "primary_keys") with
    | .ok cs, .ok is, .ok fks, .ok pks => .ok ⟨cs, is, fks, pks⟩
    | _, _, _, _ => .error ()
  | _ => .error ()

/-- Unmarshal of the entries of the `tables` map. -/
def decodeTableEntries : List (String × Json) → Except Unit (List (String × tableState))
  | [] => .ok []
  | (k, v) :: rest =>
    match decodeTable v, decodeTableEntries rest with
    | .ok t, .ok tail => .ok ((k, t) :: tail)
    | _, _ => .error ()

/-- Unmarshal into the `tables` map. -/
def decodeTables : Json → Except Unit (List (String × tableState))
  | .null => .ok []
  | .obj fs => decodeTableEntries fs
  | _ => .error ()

/-- Unmarshal into a `schemaState` (Go `json.Unmarshal(data, &state)`
followed by the nil-map fix-up of `loadState`). -/
def decodeState : Json → Except Unit schemaState
  | .null => .ok ⟨[]⟩
  | .obj fs =>
    match decodeTables (getField fs "tables") with
    | .ok ts => .ok ⟨ts⟩
    | .error e => .error e
  | _ => .error ()

/-- What `loadState` finds at the snapshot path: no file, an I/O failure,
or a parsed JSON document. -/
inductive SnapshotFile where
  | missing
  | ioError
  | content (doc : Json)

/-- Go `saveState`: marshals the state and writes the document to the
snapshot path. -/
def saveState (s : schemaState) : SnapshotFile :=
  .content (encodeState s)

/-- Go `loadState`: a missing file yields the empty state without error,
an I/O failure is propagated, and content is unmarshalled (malformed
content is an error). -/
def loadState : SnapshotFile → Except Unit schemaState
  | .missing => .ok ⟨[]⟩
  | .ioError => .error ()
  | .content doc => decodeState doc

/-! ## Order facts about the string comparison -/

theorem charListLt_irrefl : ∀ l : List Char, charListLt l l = false
  | [] => rfl
  | c :: cs => by
    simp [charListLt, lt_irrefl, charListLt_irrefl cs]

theorem strLt_irrefl (s : String) : strLt s s = false :=
  charListLt_irrefl s.data

theorem charListLt_asymm (a : List Char) : ∀ b : List Char,
    charListLt a b = true → charListLt b a = false := by
  induction a with
  | nil =>
    intro b
    cases b with
    | nil => simp [charListLt]
    | cons c cs => intro _; rfl
  | cons x xs ih =>
    intro b
    cases b with
    | nil => simp [charListLt]
    | cons y ys =>
      by_cases h1 : x < y
      · have h2 : ¬ y < x := not_lt_of_gt h1
        have h3 : ¬ y = x := fun he => absurd (he ▸ h1) (lt_irrefl x)
        intro _
        simp [charListLt, h2, h3]
      · by_cases h4 : x = y
        · subst h4
          intro h
          have h' : charListLt xs ys = true := by
            simpa [charListLt, lt_irrefl] using h
          simp [charListLt, lt_irrefl, ih ys h']
        · intro h
          simp [charListLt, h1, h4] at h

theorem strLt_asymm (a b : String) (h : strLt a b = true) : strLt b a = false :=
  charListLt_asymm a.data b.data h

theorem charListLt_ne : ∀ a b : List Char, charListLt a b = true → a ≠ b := by
  intro a b h he
  subst he
  rw [charListLt_irrefl] at h
  cases h

theorem strLt_ne (a b : String) (h : strLt a b = true) : a ≠ b := by
  intro he
  subst he
  rw [strLt_irrefl] at h
  cases h

theorem charListLt_trans (a : List Char) : ∀ b c : List Char,
    charListLt a b = true → charListLt b c = true → charListLt a c = true := by
  induction a with
  | nil =>
    intro b c hab hbc
    cases b with
    | nil => exact hbc
    | cons y ys =>
      cases c with
      | nil => simp [charListLt] at hbc
      | cons z zs => rfl
  | cons x xs ih =>
    intro b c hab hbc
    cases b with
    | nil => simp [charListLt] at hab
    | cons y ys =>
      cases c with
      | nil => simp [charListLt] at hbc
      | cons z zs =>
        by_cases h1 : x < y
        · by_cases h2 : y < z
          · simp [charListLt, lt_trans h1 h2]
          · by_cases h3 : y = z
            · subst h3
              simp [charListLt, h1]
            · simp [charListLt, h2, h3] at hbc
        · by_cases h4 : x = y
          · subst h4
            have hab' : charListLt xs ys = true := by
              simpa [charListLt, lt_irrefl] using hab
            by_cases h2 : x < z
            · simp [charListLt, h2]
            · by_cases h3 : x = z
              · subst h3
                have hbc' : charListLt ys zs = true := by
                  simpa [charListLt, lt_irrefl] using hbc
                simp [charListLt, lt_irrefl, ih ys zs hab' hbc']
              · simp [charListLt, h2, h3] at hbc
          · simp [charListLt, h1, h4] at hab

theorem strLt_trans (a b c : String) (h1 : strLt a b = true) (h2 : strLt b c = true) :
    strLt a c = true :=
  charListLt_trans a.data b.data c.data h1 h2

/-- Strictly sorted key list (canonical association-list form of a Go map). -/
def strictSorted : List String → Bool
  | [] => true
  | [_] => true
  | a :: b :: rest => strLt a b && strictSorted (b :: rest)

/-- Canonical representative of a Go `tableState` value: every inner map is
listed with strictly sorted keys. -/
def canonicalTable (t : tableState) : Bool :=
  strictSorted (keysOf t.Columns) && strictSorted (keysOf t.Indexes) &&
    strictSorted (keysOf t.ForeignKeys)

/-- Canonical representative of a Go `schemaState` value. -/
def canonicalState (s : schemaState) : Bool :=
  strictSorted (keysOf s.Tables) && s.Tables.all (fun p => canonicalTable p.2)

theorem strictSorted_cons : ∀ (x : String) (l : List String),
    strictSorted (x :: l) = true →
    (∀ y ∈ l, strLt x y = true) ∧ strictSorted l = true
  | _, [] => fun _ => ⟨by simp, rfl⟩
  | x, y :: ys => by
    intro h
    rw [strictSorted, Bool.and_eq_true] at h
    obtain ⟨hxy, htail⟩ := h
    obtain ⟨hall, _⟩ := strictSorted_cons y ys htail
    refine ⟨?_, htail⟩
    intro z hz
    rcases List.mem_cons.mp hz with rfl | hz'
    · exact hxy
    · exact strLt_trans x y z hxy (hall z hz')

theorem insertSorted_lt_head (x y : String) (ys : List String)
    (h : strLt x y = true) : insertSorted x (y :: ys) = x :: y :: ys := by
  unfold insertSorted
  have : strLe x y = true := by
    unfold strLe
    rw [strLt_asymm x y h]
    rfl
  rw [this]
  simp

theorem sortStrings_fix : ∀ l : List String, strictSorted l = true → sortStrings l = l
  | [] => fun _ => rfl
  | [x] => fun _ => rfl
  | x :: y :: ys => by
    intro h
    obtain ⟨hall, htail⟩ := strictSorted_cons x (y :: ys) h
    show insertSorted x (sortStrings (y :: ys)) = x :: y :: ys
    rw [sortStrings_fix (y :: ys) htail]
    exact insertSorted_lt_head x y ys (hall y (by simp))

theorem lookupD_cons_self {α : Type} (k : String) (v : α) (rest : List (String × α)) (d : α) :
    lookupD ((k, v) :: rest) k d = v := by
  simp [lookupD, List.find?]

theorem lookupD_cons_ne {α : Type} (k k' : String) (v : α) (rest : List (String × α)) (d : α)
    (h : k ≠ k') : lookupD ((k, v) :: rest) k' d = lookupD rest k' d := by
  have hb : (k == k') = false := beq_eq_false_iff_ne.mpr h
  simp [lookupD, List.find?, hb]

theorem keys_map_lookupD {α β : Type} (f : α → β) (d : α) :
    ∀ m : List (String × α), strictSorted (keysOf m) = true →
    (keysOf m).map (fun k => (k, f (lookupD m k d))) = m.map (fun p => (p.1, f p.2)) := by
  intro m
  induction m with
  | nil => intro _; rfl
  | cons p rest ih =>
    intro h
    obtain ⟨k, v⟩ := p
    have hk : keysOf ((k, v) :: rest) = k :: keysOf rest := rfl
    rw [hk] at h ⊢
    obtain ⟨hall, htail⟩ := strictSorted_cons k (keysOf rest) h
    simp only [List.map_cons, lookupD_cons_self]
    congr 1
    rw [← ih htail]
    apply List.map_congr_left
    intro k' hk'
    rw [lookupD_cons_ne k k' v rest d (strLt_ne k k' (hall k' hk'))]

theorem encodeMapWith_canonical {α : Type} (enc : α → Json) (d : α)
    (m : List (String × α)) (h : strictSorted (keysOf m) = true) :
    encodeMapWith enc d m = .obj (m.map (fun p => (p.1, enc p.2))) := by
  unfold encodeMapWith sortedKeys
  rw [sortStrings_fix _ h, keys_map_lookupD enc d m h]

/-! ## Round-trip of the snapshot serialization -/

theorem getField_nil (k : String) : getField [] k = .null := rfl

theorem getField_cons_self (k : String) (v : Json) (fs : List (String × Json)) :
    getField ((k, v) :: fs) k = v := by
  simp [getField, List.find?]

theorem getField_cons_ne (k k' : String) (v : Json) (fs : List (String × Json))
    (h : (k == k') = false) : getField ((k, v) :: fs) k' = getField fs k' := by
  simp [getField, List.find?, h]

theorem getField_optStr_self (k v : String) (fs : List (String × Json))
    (h : getField fs k = .null) :
    decodeString (getField (optStr k v ++ fs) k) = .ok v := by
  by_cases hv : v = "" <;> simp [optStr, hv, getField_cons_self, h, decodeString]

theorem getField_optStr_ne (k k' v : String) (fs : List (String × Json))
    (h : (k == k') = false) :
    getField (optStr k v ++ fs) k' = getField fs k' := by
  by_cases hv : v = "" <;> simp [optStr, hv, getField_cons_ne _ _ _ _ h]

theorem getField_optNum_self (k : String) (n : Int) (fs : List (String × Json))
    (h : getField fs k = .null) :
    decodeInt (getField (optNum k n ++ fs) k) = .ok n := by
  by_cases hn : n = 0 <;> simp [optNum, hn, getField_cons_self, h, decodeInt]

theorem getField_optNum_ne (k k' : String) (n : Int) (fs : List (String × Json))
    (h : (k == k') = false) :
    getField (optNum k n ++ fs) k' = getField fs k' := by
  by_cases hn : n = 0 <;> simp [optNum, hn, getField_cons_ne _ _ _ _ h]

theorem decodeColumn_roundtrip (c : columnState) :
    decodeColumn (encodeColumn c) = .ok c := rfl

theorem decodeIndexField_roundtrip (f : indexFieldState) :
    decodeIndexField (encodeIndexField f) = .ok f := by
  obtain ⟨col, expr, srt, coll, len⟩ := f
  show decodeIndexField (.obj (optStr "column" col ++ optStr "expression" expr ++
    optStr "sort" srt ++ optStr "collate" coll ++ optNum "length" len)) = _
  rw [decodeIndexField]
  rw [show ∀ a b c d e : List (String × Json),
        a ++ b ++ c ++ d ++ e = a ++ (b ++ (c ++ (d ++ (e ++ []))))
      from fun a b c d e => by simp [List.append_assoc]]
  rw [getField_optStr_self "column" col _ (by
        rw [getField_optStr_ne, getField_optStr_ne, getField_optStr_ne, getField_optNum_ne] <;>
          first | rfl | decide),
      getField_optStr_ne "column" "expression" _ _ (by decide),
      getField_optStr_self "expression" expr _ (by
        rw [getField_optStr_ne, getField_optStr_ne, getField_optNum_ne] <;>
          first | rfl | decide),
      getField_optStr_ne "column" "sort" _ _ (by decide),
      getField_optStr_ne "expression" "sort" _ _ (by decide),
      getField_optStr_self "sort" srt _ (by
        rw [getField_optStr_ne, getField_optNum_ne] <;> first | rfl | decide),
      getField_optStr_ne "column" "collate" _ _ (by decide),
      getField_optStr_ne "expression" "collate" _ _ (by decide),
      getField_optStr_ne "sort" "collate" _ _ (by decide),
      getField_optStr_self "collate" coll _ (by
        rw [getField_optNum_ne] <;> first | rfl | decide),
      getField_optStr_ne "column" "length" _ _ (by decide),
      getField_optStr_ne "expression" "length" _ _ (by decide),
      getField_optStr_ne "sort" "length" _ _ (by decide),
      getField_optStr_ne "collate" "length" _ _ (by decide),
      getField_optNum_self "length" len [] rfl]

theorem decodeStringElems_roundtrip : ∀ l : List String,
    decodeStringElems (l.map .str) = .ok l
  | [] => rfl
  | s :: rest => by
    simp only [List.map_cons, decodeStringElems, decodeString,
      decodeStringElems_roundtrip rest]

theorem decodeStringList_roundtrip (l : List String) :
    decodeStringList (.arr (l.map .str)) = .ok l := by
  simp only [decodeStringList, decodeStringElems_roundtrip]

theorem decodeIndexFieldElems_roundtrip : ∀ l : List indexFieldState,
    decodeIndexFieldElems (l.map encodeIndexField) = .ok l
  | [] => rfl
  | f :: rest => by
    simp only [List.map_cons, decodeIndexFieldElems, decodeIndexField_roundtrip f,
      decodeIndexFieldElems_roundtrip rest]

theorem decodeIndexFields_roundtrip (l : List indexFieldState) :
    decodeIndexFields (.arr (l.map encodeIndexField)) = .ok l := by
  simp only [decodeIndexFields, decodeIndexFieldElems_roundtrip]

theorem decodeIndex_roundtrip (i : indexState) :
    decodeIndex (encodeIndex i) = .ok i := by
  obtain ⟨cl, ty, wh, co, op, flds⟩ := i
  show decodeIndex (.obj (optStr "class" cl ++ optStr "type" ty ++ optStr "where" wh ++
    optStr "comment" co ++ optStr "option" op ++
    [("fields", .arr (flds.map encodeIndexField))])) = _
  rw [decodeIndex]
  rw [show ∀ (a b c d e f : List (String × Json)),
        a ++ b ++ c ++ d ++ e ++ f = a ++ (b ++ (c ++ (d ++ (e ++ f))))
      from fun _ _ _ _ _ _ => by simp [List.append_assoc]]
  rw [getField_optStr_self "class" cl _ (by
        rw [getField_optStr_ne, getField_optStr_ne, getField_optStr_ne, getField_optStr_ne,
          getField_cons_ne] <;> first | rfl | decide),
      getField_optStr_ne "class" "type" _ _ (by decide),
      getField_optStr_self "type" ty _ (by
        rw [getField_optStr_ne, getField_optStr_ne, getField_optStr_ne,
          getField_cons_ne] <;> first | rfl | decide),
      getField_optStr_ne "class" "where" _ _ (by decide),
      getField_optStr_ne "type" "where" _ _ (by decide),
      getField_optStr_self "where" wh _ (by
        rw [getField_optStr_ne, getField_optStr_ne, getField_cons_ne] <;>
          first | rfl | decide),
      getField_optStr_ne "class" "comment" _ _ (by decide),
      getField_optStr_ne "type" "comment" _ _ (by decide),
      getField_optStr_ne "where" "comment" _ _ (by decide),
      getField_optStr_self "comment" co _ (by
        rw [getField_optStr_ne, getField_cons_ne] <;> first | rfl | decide),
      getField_optStr_ne "class" "option" _ _ (by decide),
      getField_optStr_ne "type" "option" _ _ (by decide),
      getField_optStr_ne "where" "option" _ _ (by decide),
      getField_optStr_ne "comment" "option" _ _ (by decide),
      getField_optStr_self "option" op _ (by
        rw [getField_cons_ne] <;> first | rfl | decide),
      getField_optStr_ne "class" "fields" _ _ (by decide),
      getField_optStr_ne "type" "fields" _ _ (by decide),
      getField_optStr_ne "where" "fields" _ _ (by decide),
      getField_optStr_ne "comment" "fields" _ _ (by decide),
      getField_optStr_ne "option" "fields" _ _ (by decide),
      getField_cons_self "fields" _ _,
      decodeIndexFields_roundtrip]

theorem decodeFK_roundtrip (fk : foreignKeyState) :
    decodeFK (encodeFK fk) = .ok fk := by
  obtain ⟨cs, rt, rcs, od, ou⟩ := fk
  show decodeFK (.obj ([("columns", .arr (cs.map .str)),
    ("ref_table", .str rt), ("ref_columns", .arr (rcs.map .str))] ++
    optStr "on_delete" od ++ optStr "on_update" ou)) = _
  rw [decodeFK]
  rw [show ∀ (o1 o2 : List (String × Json)) (p1 p2 p3 : String × Json),
        [p1, p2, p3] ++ o1 ++ o2 = p1 :: p2 :: p3 :: (o1 ++ (o2 ++ []))
      from fun _ _ _ _ _ => by simp [List.append_assoc]]
  rw [getField_cons_self "columns" _ _,
      getField_cons_ne "columns" "ref_table" _ _ (by decide),
      getField_cons_self "ref_table" _ _,
      getField_cons_ne "columns" "ref_columns" _ _ (by decide),
      getField_cons_ne "ref_table" "ref_columns" _ _ (by decide),
      getField_cons_self "ref_columns" _ _,
      getField_cons_ne "columns" "on_delete" _ _ (by decide),
      getField_cons_ne "ref_table" "on_delete" _ _ (by decide),
      getField_cons_ne "ref_columns" "on_delete" _ _ (by decide),
      getField_optStr_self "on_delete" od _ (by
        rw [getField_optStr_ne] <;> first | rfl | decide),
      getField_cons_ne "columns" "on_update" _ _ (by decide),
      getField_cons_ne "ref_table" "on_update" _ _ (by decide),
      getField_cons_ne "ref_columns" "on_update" _ _ (by decide),
      getField_optStr_ne "on_delete" "on_update" _ _ (by decide),
      getField_optStr_self "on_update" ou [] rfl,
      decodeStringList_roundtrip, decodeStringList_roundtrip]
  rfl

theorem decodeColumnEntries_roundtrip : ∀ m : List (String × columnState),
    decodeColumnEntries (m.map (fun p => (p.1, encodeColumn p.2))) = .ok m
  | [] => rfl
  | (k, v) :: rest => by
    simp only [List.map_cons, decodeColumnEntries, decodeColumn_roundtrip v,
      decodeColumnEntries_roundtrip rest]

theorem decodeIndexEntries_roundtrip : ∀ m : List (String × indexState),
    decodeIndexEntries (m.map (fun p => (p.1, encodeIndex p.2))) = .ok m
  | [] => rfl
  | (k, v) :: rest => by
    simp only [List.map_cons, decodeIndexEntries, decodeIndex_roundtrip v,
      decodeIndexEntries_roundtrip rest]

theorem decodeFKEntries_roundtrip : ∀ m : List (String × foreignKeyState),
    decodeFKEntries (m.map (fun p => (p.1, encodeFK p.2))) = .ok m
  | [] => rfl
  | (k, v) :: rest => by
    simp only [List.map_cons, decodeFKEntries, decodeFK_roundtrip v,
      decodeFKEntries_roundtrip rest]

theorem decodeColumns_roundtrip (m : List (String × columnState))
    (h : strictSorted (keysOf m) = true) :
    decodeColumns (encodeMapWith encodeColumn zeroColumn m) = .ok m := by
  rw [encodeMapWith_canonical _ _ _ h]
  simp only [decodeColumns, decodeColumnEntries_roundtrip]

theorem decodeIndexes_roundtrip (m : List (String × indexState))
    (h : strictSorted (keysOf m) = true) :
    decodeIndexes (encodeMapWith encodeIndex zeroIndex m) = .ok m := by
  rw [encodeMapWith_canonical _ _ _ h]
  simp only [decodeIndexes, decodeIndexEntries_roundtrip]

theorem decodeFKs_roundtrip (m : List (String × foreignKeyState))
    (h : strictSorted (keysOf m) = true) :
    decodeFKs (encodeMapWith encodeFK zeroFK m) = .ok m := by
  rw [encodeMapWith_canonical _ _ _ h]
  simp only [decodeFKs, decodeFKEntries_roundtrip]

theorem decodeIndexes_null : decodeIndexes .null = .ok [] := rfl

theorem decodeFKs_null : decodeFKs .null = .ok [] := rfl

theorem decodeStringList_null : decodeStringList .null = .ok [] := rfl

theorem decodeTable_roundtrip (t : tableState) (h : canonicalTable t = true) :
    decodeTable (encodeTable t) = .ok t := by
  obtain ⟨cs, is, fks, pks⟩ := t
  unfold canonicalTable at h
  simp only [Bool.and_eq_true] at h
  obtain ⟨⟨hcs, his⟩, hfks⟩ := h
  show decodeTable (.obj ([("columns", encodeMapWith encodeColumn zeroColumn cs)] ++
      (if is = [] then [] else [("indexes", encodeMapWith encodeIndex zeroIndex is)]) ++
      (if fks = [] then [] else [("foreign_keys", encodeMapWith encodeFK zeroFK fks)]) ++
      (if pks = [] then [] else [("primary_keys", .arr (pks.map .str))]))) = _
  by_cases h1 : is = [] <;> by_cases h2 : fks = [] <;> by_cases h3 : pks = [] <;>
    simp [h1, h2, h3, decodeTable, getField_cons_self, getField_cons_ne,
      decodeColumns_roundtrip cs hcs, decodeIndexes_roundtrip is his,
      decodeFKs_roundtrip fks hfks, decodeStringList_roundtrip,
      decodeIndexes_null, decodeFKs_null, decodeStringList_null, getField_nil]

theorem decodeTableEntries_roundtrip : ∀ m : List (String × tableState),
    (∀ p ∈ m, canonicalTable p.2 = true) →
    decodeTableEntries (m.map (fun p => (p.1, encodeTable p.2))) = .ok m
  | [] => fun _ => rfl
  | (k, v) :: rest => fun h => by
    simp only [List.map_cons, decodeTableEntries,
      decodeTable_roundtrip v (h (k, v) (by simp)),
      decodeTableEntries_roundtrip rest (fun p hp => h p (by simp [hp]))]

theorem decodeState_roundtrip (S : schemaState) (h : canonicalState S = true) :
    decodeState (encodeState S) = .ok S := by
  obtain ⟨tables⟩ := S
  unfold canonicalState at h
  simp only [Bool.and_eq_true, List.all_eq_true] at h
  obtain ⟨hkeys, htabs⟩ := h
  show decodeState (.obj [("tables", encodeMapWith encodeTable zeroTable tables)]) = _
  rw [decodeState, getField_cons_self, encodeMapWith_canonical _ _ _ hkeys]
  rw [show decodeTables (.obj (tables.map (fun p => (p.1, encodeTable p.2)))) =
        decodeTableEntries (tables.map (fun p => (p.1, encodeTable p.2))) from rfl]
  rw [decodeTableEntries_roundtrip tables htabs]

/-- **C4.** Round-trip serialization: saving a schema state to the snapshot
path and loading it back yields the same state, for every state with at
least one table, one index, and one foreign key.  The state is taken in
its canonical association-list representative (strictly sorted keys) —
the list order of an association list is representation, not data, for
the unordered Go maps it models. -/
theorem loadState_saveState_roundtrip (S : schemaState)
    (hcanon : canonicalState S = true)
    (htbl : S.Tables ≠ [])
    (hidx : S.Tables.any (fun p => ! p.2.Indexes.isEmpty) = true)
    (hfk : S.Tables.any (fun p => ! p.2.ForeignKeys.isEmpty) = true) :
    loadState (saveState S) = .ok S := by
  show decodeState (encodeState S) = .ok S
  exact decodeState_roundtrip S hcanon

/-- Concrete instance of `loadState_saveState_roundtrip` at a state with a
table, a unique index, and a foreign key. -/
theorem loadState_saveState_roundtrip_witness :
    canonicalState wState = true ∧ loadState (saveState wState) = .ok wState :=
  ⟨by decide,
   loadState_saveState_roundtrip wState (by decide) (by decide) (by decide) (by decide)⟩

/-- **C7.** `loadState` on a missing snapshot file returns the empty schema
state and no error, while persisted content that does not parse as a
snapshot returns an error — an outcome distinct from the absent-file
case.  (`json.Unmarshal` rejects any document that is not an object or
`null`, so a top-level string, number, boolean, or array is malformed.) -/
theorem loadState_missing_empty_malformed_error :
    loadState .missing = .ok ⟨[]⟩ ∧
    (∀ s : String, loadState (.content (.str s)) = .error ()) ∧
    (∀ n : Int, loadState (.content (.num n)) = .error ()) ∧
    (∀ b : Bool, loadState (.content (.bool b)) = .error ()) ∧
    (∀ elems : List Json, loadState (.content (.arr elems)) = .error ()) ∧
    loadState .missing ≠ loadState (.content (.str "malformed snapshot text")) :=
  ⟨rfl, fun _ => rfl, fun _ => rfl, fun _ => rfl, fun _ => rfl,
   fun h => Except.noConfusion h⟩

/-! ## `MakeMigrations` orchestration

`MakeMigrations` validates the name, loads the previous snapshot, builds
the current state from the models, diffs, and — only when the up list is
non-empty — writes the up file, the down file, and the new snapshot, in
that order, returning at the first failure.  The model abstracts the
collaborators: the snapshot load and the model introspection are given as
results, and each `os.WriteFile` call is given a success flag (a failed
write is modelled as writing nothing). -/

/-- The three files a successful `MakeMigrations` run writes. -/
inductive WriteTag where
  | upFile
  | downFile
  | snapshotFile
deriving Repr, DecidableEq

/-- Inputs and filesystem behaviour of one `MakeMigrations` run. -/
structure MigEnv where
  name : String
  loadResult : Except Unit schemaState
  buildResult : Except Unit schemaState
  upWriteOk : Bool
  downWriteOk : Bool
  stateWriteOk : Bool

/-- Go `MakeMigrations`: result (`Changed` flag on success) together with
the files actually written, in write order. -/
def makeMigrations (env : MigEnv) : Except Unit Bool × List WriteTag :=
  if trimSpace env.name = "" then (.error (), [])
  else
    match env.loadResult with
    | .error e => (.error e, [])
    | .ok previous =>
      match env.buildResult with
      | .error e => (.error e, [])
      | .ok current =>
        if (buildDiff previous current).1 = [] then (.ok false, [])
        else if env.upWriteOk = false then (.error (), [])
        else if env.downWriteOk = false then (.error (), [.upFile])
        else if env.stateWriteOk = false then (.error (), [.upFile, .downFile])
        else (.ok true, [.upFile, .downFile, .snapshotFile])

/-- Run on which the claim's "never leaves an up-file written without its
matching down-file" fails: the down-file write fails after the up-file
write succeeded. -/
def wEnvDownFail : MigEnv :=
  { name := "add_users", loadResult := .ok ⟨[]⟩, buildResult := .ok wState
    upWriteOk := true, downWriteOk := false, stateWriteOk := true }

/-- **C6 counterexample.** When the down-file write fails, `MakeMigrations`
returns the error but the already-written up file remains without its
down file and without an updated snapshot. -/
theorem makeMigrations_partial_write_counterexample :
    (makeMigrations wEnvDownFail).2.contains .upFile = true ∧
    (makeMigrations wEnvDownFail).2.contains .downFile = false ∧
    (makeMigrations wEnvDownFail).2.contains .snapshotFile = false ∧
    (makeMigrations wEnvDownFail).1 = .error () :=
  ⟨by decide, by decide, by decide, rfl⟩

/-- **C6 (amended).** Every error raised before or during the diff is
returned with no file written; files are written only after the full diff
succeeds with a non-empty up list; when every write succeeds, either
nothing or all three files are written; and the writes happen in the
order up file, down file, snapshot — so a later write can fail only after
the earlier files were already written. -/
theorem makeMigrations_write_discipline (env : MigEnv) :
    ((makeMigrations env).2 ≠ [] →
      ∃ previous current, env.loadResult = .ok previous ∧ env.buildResult = .ok current ∧
        (buildDiff previous current).1 ≠ []) ∧
    (env.upWriteOk = true → env.downWriteOk = true → env.stateWriteOk = true →
      (makeMigrations env).2 = [] ∨
      (makeMigrations env).2 = [.upFile, .downFile, .snapshotFile]) ∧
    (WriteTag.downFile ∈ (makeMigrations env).2 → WriteTag.upFile ∈ (makeMigrations env).2) ∧
    (WriteTag.snapshotFile ∈ (makeMigrations env).2 →
      WriteTag.downFile ∈ (makeMigrations env).2) := by
  unfold makeMigrations
  by_cases hname : trimSpace env.name = ""
  · simp [hname]
  · rcases hload : env.loadResult with e | previous
    · simp [hname, hload]
    · rcases hbuild : env.buildResult with e | current
      · simp [hname, hload, hbuild]
      · by_cases hdiff : (buildDiff previous current).1 = []
        · simp [hname, hload, hbuild, hdiff]
        · by_cases hup : env.upWriteOk <;> by_cases hdown : env.downWriteOk <;>
            by_cases hstate : env.stateWriteOk <;>
            simp [hname, hload, hbuild, hdiff, hup, hdown, hstate]

/-- Concrete instance of `makeMigrations_write_discipline`: with all writes
succeeding and a non-empty diff, exactly the three files are written. -/
theorem makeMigrations_write_discipline_witness :
    (makeMigrations { wEnvDownFail with downWriteOk := true }).2 = [] ∨
    (makeMigrations { wEnvDownFail with downWriteOk := true }).2 =
      [.upFile, .downFile, .snapshotFile] :=
  (makeMigrations_write_discipline { wEnvDownFail with downWriteOk := true }).2.1
    rfl rfl rfl

/-- Concrete instance of `createTableSQL_primary_key_clause`: a composite
primary key declared as `["b", "a"]` is rendered in that declared order. -/
theorem createTableSQL_primary_key_clause_witness :
    ∃ pre post, createTableSQL "t"
        { Columns := [("a", ⟨"int"⟩), ("b", ⟨"int"⟩)], Indexes := [], ForeignKeys := []
          PrimaryKeys := ["b", "a"] } =
      pre ++ ("PRIMARY KEY (" ++
        joinSep ", " ((["b", "a"] : List String).map (fun pk => "`" ++ pk ++ "`")) ++ ")") ++ post :=
  createTableSQL_primary_key_clause "t"
    { Columns := [("a", ⟨"int"⟩), ("b", ⟨"int"⟩)], Indexes := [], ForeignKeys := []
      PrimaryKeys := ["b", "a"] } (by decide)

end GoMigration
